import Mathlib

/-!
Verification of the dual-resolution grid addressing, placement validation,
path-wall derivation and arrow logic of the wizardry-map-tools editor.

The definitions below are a shallow embedding of the TypeScript source:

* `src/src/components/editor/TileCanvas.tsx` — grid classification
  (`isValidPlacement`, `getAccessiblePlacementType`,
  `getExpandedPlacementType`), target resolution (`getTargetPosition`),
  the mutations (`addPathPoint`, `placeTile`, `removeTile`,
  `removePathPoint`), path-wall derivation (`hasPathConnection`,
  `drawPathWalls`), arrow validation (`isValidArrowPosition`,
  `isStraightLine`, `doesLinePassThroughWalls`,
  `arePointsAdjacentAndAligned`, `isValidArrowSegment`), arrow
  creation/removal (`createArrowFromPoints`, `removeArrowAtPosition`), the
  mouse handlers for comment mode, and the overlap-offset solver
  (`calculatePerpendicularOffset`, `calculateArrowOffsets`).

JavaScript numeric conventions: `Math.floor(x / 3)` on integers is
`Int.fdiv x 3`, and the JS remainder operator `%` truncates toward zero,
which is `Int.tmod`.  All fine coordinates that reach an interesting code
path are non-negative (the mutations bounds-check first and the claims
quantify over fine cells of the grid), where `Int.tmod` agrees with the
mathematical `Int.emod` used in claim statements.
-/

namespace WizMap

/-- `MapPosition` from `types`: an integer pair.  Used both for fine (81×81)
and logical (27×27) coordinates. -/
structure MapPosition where
  x : Int
  y : Int
deriving DecidableEq, Repr

/-- A tile of the palette.  `id` is the tile identifier written into the
grid; `isEdge` is the result of the catalog predicate
`tileLoader.isEdgeTile` (a string-pattern test on the identifier —
`switch_wall`/`door2`/`door3`/`door4` — that the placement code only ever
consumes as this boolean). -/
structure Tile where
  id : String
  isEdge : Bool
deriving DecidableEq, Repr

inductive DrawingMode where
  | tile
  | path
deriving DecidableEq, Repr

inductive LayerType where
  | tiles
  | comments
deriving DecidableEq, Repr

/-- `CommentArrow` from `types`: a finalized arrow annotation. -/
structure CommentArrow where
  id : String
  points : List MapPosition
  color : String
  thickness : Int
  timestamp : Int
deriving DecidableEq, Repr

/-- One entry of `MapData.layers`.  Only the fields the embedded
operations read or write are modelled; `id`, `name`, `visible` and
`opacity` are rendering metadata untouched by every operation considered
here.  `tiles` is indexed `tiles[y][x]` as in the source. -/
structure TileLayer where
  ltype : LayerType
  tiles : List (List (Option String))
  arrows : Option (List CommentArrow)
deriving DecidableEq, Repr

/-- The map document: bounds plus the layer stack. -/
structure MapData where
  width : Int
  height : Int
  layers : List TileLayer
deriving DecidableEq, Repr

/-- The mutable editor state owned by the interaction session: the map
document, the path set (`paths` prop, logical coordinates in insertion
order), and the per-drag `processedCells` bookkeeping.  The source keys
`processedCells` (a JS `Set<string>`) by the string `"x,y"`, which encodes
exactly the logical pair, so it is modelled as a list of positions
queried only through membership. -/
structure EditorState where
  mapData : MapData
  paths : List MapPosition
  processedCells : List MapPosition
deriving DecidableEq, Repr

/-- In-progress arrow state: the `isDrawingArrow` /
`currentArrowPoints` props. -/
structure ArrowDrawState where
  isDrawingArrow : Bool
  currentArrowPoints : List MapPosition
deriving DecidableEq, Repr

inductive PlacementType where
  | edge
  | normal
  | invalid
deriving DecidableEq, Repr

/-- `isValidPlacement` (TileCanvas.tsx): a fine cell admits some placement
unless it is a corner of its 3×3 block. -/
def isValidPlacement (x y : Int) : Bool :=
  let subX := x.tmod 3
  let subY := y.tmod 3
  !((subX == 0 || subX == 2) && (subY == 0 || subY == 2))

/-- `getAccessiblePlacementType` (TileCanvas.tsx).  The source computes an
`isDoorTile` flag here but returns `'edge'` on edge positions whether or
not it holds, so the flag is elided. -/
def getAccessiblePlacementType (tilePos : MapPosition) : PlacementType :=
  let subX := tilePos.x.tmod 3
  let subY := tilePos.y.tmod 3
  if (subX == 0 || subX == 2) && (subY == 0 || subY == 2) then .invalid
  else if subX == 1 && subY == 1 then .normal
  else if (subX == 1 && (subY == 0 || subY == 2)) ||
          (subY == 1 && (subX == 0 || subX == 2)) then .edge
  else .normal

/-- `getExpandedPlacementType` (TileCanvas.tsx): the expanded click-area
classification, depending on the selected tile and the drawing mode.  The
source also computes an unused `isDoorTile` flag (only logged). -/
def getExpandedPlacementType (selectedTile : Option Tile)
    (drawingMode : DrawingMode) (tilePos : MapPosition) : PlacementType :=
  let subX := tilePos.x.tmod 3
  let subY := tilePos.y.tmod 3
  let isEdgeTile := match selectedTile with
    | some t => t.isEdge
    | none => false
  if (subX == 0 || subX == 2) && (subY == 0 || subY == 2) then .invalid
  else if drawingMode = .path then .normal
  else if selectedTile.isSome && !isEdgeTile then .normal
  else if isEdgeTile then
    if (subX == 1 && (subY == 0 || subY == 2)) ||
       (subY == 1 && (subX == 0 || subX == 2)) then .edge
    else if subX == 1 && subY == 1 then .edge
    else .invalid
  else getAccessiblePlacementType tilePos

/-- `isPositionOnPath` (TileCanvas.tsx): whether the containing logical
cell is in the path set. -/
def isPositionOnPath (paths : List MapPosition) (tilePos : MapPosition) : Bool :=
  let logicalX := tilePos.x.fdiv 3
  let logicalY := tilePos.y.fdiv 3
  paths.any fun pathPoint => pathPoint.x == logicalX && pathPoint.y == logicalY

/-- `getTargetPosition` (TileCanvas.tsx): canonicalizes a clicked fine cell
to the cell the mutation actually addresses. -/
def getTargetPosition (selectedTile : Option Tile)
    (drawingMode : DrawingMode) (tilePos : MapPosition) : MapPosition :=
  let subX := tilePos.x.tmod 3
  let subY := tilePos.y.tmod 3
  let blockX := tilePos.x.fdiv 3 * 3
  let blockY := tilePos.y.fdiv 3 * 3
  let isEdgeTile := match selectedTile with
    | some t => t.isEdge
    | none => false
  if isEdgeTile then
    if subX == 1 && subY == 1 then ⟨blockX + 1, blockY + 0⟩
    else tilePos
  else if selectedTile.isSome then ⟨blockX + 1, blockY + 1⟩
  else if drawingMode = .path then ⟨blockX + 1, blockY + 1⟩
  else tilePos

/-- `addPathPoint` (TileCanvas.tsx): bounds check, expanded-placement gate,
drag-duplicate suppression via `processedCells`, then insertion of the
logical coordinate if absent. -/
def addPathPoint (selectedTile : Option Tile) (drawingMode : DrawingMode)
    (tilePos : MapPosition) (isFirstClick : Bool) (s : EditorState) : EditorState :=
  if tilePos.x < 0 ∨ s.mapData.width ≤ tilePos.x ∨
     tilePos.y < 0 ∨ s.mapData.height ≤ tilePos.y then s
  else if getExpandedPlacementType selectedTile drawingMode tilePos ≠ .normal then s
  else
    let logicalX := tilePos.x.fdiv 3
    let logicalY := tilePos.y.fdiv 3
    let cellKey : MapPosition := ⟨logicalX, logicalY⟩
    if !isFirstClick && s.processedCells.contains cellKey then s
    else
      let processed1 :=
        if s.processedCells.contains cellKey then s.processedCells
        else s.processedCells ++ [cellKey]
      if s.paths.any fun p => p.x == logicalX && p.y == logicalY then
        { s with processedCells := processed1 }
      else
        { s with processedCells := processed1,
                 paths := s.paths ++ [⟨logicalX, logicalY⟩] }

/-- `placeTile` (TileCanvas.tsx).  On an empty layer list the source would
dereference `layers[0]` of `undefined` and throw; no behaviour considered
here reaches that branch, which is modelled as a no-op. -/
def placeTile (selectedTile : Option Tile) (drawingMode : DrawingMode)
    (placeOnPathOnly : Bool) (tilePos : MapPosition) (s : EditorState) : EditorState :=
  match selectedTile with
  | none => s
  | some tile =>
    if tilePos.x < 0 ∨ s.mapData.width ≤ tilePos.x ∨
       tilePos.y < 0 ∨ s.mapData.height ≤ tilePos.y then s
    else if placeOnPathOnly && !isPositionOnPath s.paths tilePos then s
    else
      let targetPos := getTargetPosition (some tile) drawingMode tilePos
      if !isValidPlacement targetPos.x targetPos.y then s
      else
        let placementType := getExpandedPlacementType (some tile) drawingMode tilePos
        if placementType = .edge ∧ tile.isEdge = false then s
        else if placementType = .normal ∧ tile.isEdge = true then s
        else
          match s.mapData.layers with
          | [] => s
          | currentLayer :: rest =>
            let row := currentLayer.tiles.getD targetPos.y.toNat []
            let newTiles :=
              currentLayer.tiles.set targetPos.y.toNat
                (row.set targetPos.x.toNat (some tile.id))
            { s with mapData :=
                { s.mapData with layers :=
                    { currentLayer with tiles := newTiles } :: rest } }

/-- `removeTile` (TileCanvas.tsx): nulls the clicked cell of the first
layer after a bounds check (no canonicalization). -/
def removeTile (tilePos : MapPosition) (s : EditorState) : EditorState :=
  if tilePos.x < 0 ∨ s.mapData.width ≤ tilePos.x ∨
     tilePos.y < 0 ∨ s.mapData.height ≤ tilePos.y then s
  else
    match s.mapData.layers with
    | [] => s
    | currentLayer :: rest =>
      let row := currentLayer.tiles.getD tilePos.y.toNat []
      let newTiles :=
        currentLayer.tiles.set tilePos.y.toNat (row.set tilePos.x.toNat none)
      { s with mapData :=
          { s.mapData with layers :=
              { currentLayer with tiles := newTiles } :: rest } }

/-- `removePathPoint` (TileCanvas.tsx): bounds check, then removal of the
entry at the index found for the containing logical coordinate (the
source's `filter((_, i) => i !== existingIndex)` is `eraseIdx`). -/
def removePathPoint (tilePos : MapPosition) (s : EditorState) : EditorState :=
  if tilePos.x < 0 ∨ s.mapData.width ≤ tilePos.x ∨
     tilePos.y < 0 ∨ s.mapData.height ≤ tilePos.y then s
  else
    let logicalX := tilePos.x.fdiv 3
    let logicalY := tilePos.y.fdiv 3
    match s.paths.findIdx? (fun p => p.x == logicalX && p.y == logicalY) with
    | none => s
    | some existingIndex => { s with paths := s.paths.eraseIdx existingIndex }

/-- Reads `layers[0].tiles[y][x]` of a map document (the cell `placeTile`
and `removeTile` address); `none` when the indices or the layer are
missing. -/
def getTileAt (m : MapData) (x y : Int) : Option String :=
  match m.layers with
  | [] => none
  | currentLayer :: _ => (currentLayer.tiles.getD y.toNat []).getD x.toNat none

inductive Direction where
  | top
  | right
  | bottom
  | left
deriving DecidableEq, Repr

/-- The `directions` table of `hasPathConnection`. -/
def directionDelta : Direction → MapPosition
  | .top => ⟨0, -1⟩
  | .right => ⟨1, 0⟩
  | .bottom => ⟨0, 1⟩
  | .left => ⟨-1, 0⟩

/-- `hasPathConnection` (TileCanvas.tsx): whether a path cell has a path
neighbour in the given direction. -/
def hasPathConnection (paths : List MapPosition) (pathPoint : MapPosition)
    (direction : Direction) : Bool :=
  let delta := directionDelta direction
  let neighborX := pathPoint.x + delta.x
  let neighborY := pathPoint.y + delta.y
  paths.any fun p => p.x == neighborX && p.y == neighborY

/-- `drawPathWalls` (TileCanvas.tsx) fills the wall rectangle on side `d`
of path cell `p` exactly when this holds (one `fillRect` per direction,
each guarded by the negated connection query). -/
def drawsWallOnSide (paths : List MapPosition) (p : MapPosition)
    (d : Direction) : Bool :=
  !hasPathConnection paths p d

/-- The neighbouring logical coordinate in direction `d`. -/
def neighborIn (p : MapPosition) (d : Direction) : MapPosition :=
  ⟨p.x + (directionDelta d).x, p.y + (directionDelta d).y⟩

/-- The side of the neighbour that faces back at `p`. -/
def oppositeDirection : Direction → Direction
  | .top => .bottom
  | .bottom => .top
  | .left => .right
  | .right => .left

/-- `getTileCenterPosition` (TileCanvas.tsx): the identity — the source
deliberately preserves the clicked fine position. -/
def getTileCenterPosition (tilePos : MapPosition) : MapPosition :=
  ⟨tilePos.x, tilePos.y⟩

/-- `isValidArrowPosition` (TileCanvas.tsx): not a corner, and the
containing logical cell is in the path set. -/
def isValidArrowPosition (paths : List MapPosition) (tilePos : MapPosition) : Bool :=
  let subX := tilePos.x.tmod 3
  let subY := tilePos.y.tmod 3
  if (subX == 0 || subX == 2) && (subY == 0 || subY == 2) then false
  else
    let logicalX := tilePos.x.fdiv 3
    let logicalY := tilePos.y.fdiv 3
    paths.any fun pathPoint => pathPoint.x == logicalX && pathPoint.y == logicalY

/-- `isStraightLine` (TileCanvas.tsx): perfectly horizontal or vertical
with non-zero extent. -/
def isStraightLine (point1 point2 : MapPosition) : Bool :=
  let center1 := getTileCenterPosition point1
  let center2 := getTileCenterPosition point2
  (center1.y == center2.y && 0 < (center1.x - center2.x).natAbs) ||
  (center1.x == center2.x && 0 < (center1.y - center2.y).natAbs)

/-- `doesLinePassThroughWalls` (TileCanvas.tsx): the wall-crossing check,
explicitly simplified in the source to accept every straight segment. -/
def doesLinePassThroughWalls (point1 point2 : MapPosition) : Bool :=
  let center1 := getTileCenterPosition point1
  let center2 := getTileCenterPosition point2
  if center1.x == center2.x && center1.y == center2.y then false
  else if !isStraightLine point1 point2 then true
  else false

/-- `arePointsAdjacentAndAligned` (TileCanvas.tsx): any-length straight
axis-aligned segment. -/
def arePointsAdjacentAndAligned (point1 point2 : MapPosition) : Bool :=
  let center1 := getTileCenterPosition point1
  let center2 := getTileCenterPosition point2
  let dx := (center2.x - center1.x).natAbs
  let dy := (center2.y - center1.y).natAbs
  (dy == 0 && 0 < dx) || (dx == 0 && 0 < dy)

/-- `isValidArrowSegment` (TileCanvas.tsx): acceptance test for the next
proposed point of the in-progress arrow. -/
def isValidArrowSegment (paths : List MapPosition)
    (currentArrowPoints : List MapPosition) (newPoint : MapPosition) : Bool :=
  match currentArrowPoints.getLast? with
  | none => isValidArrowPosition paths newPoint
  | some lastPoint =>
    isValidArrowPosition paths newPoint &&
    isStraightLine lastPoint newPoint &&
    arePointsAdjacentAndAligned lastPoint newPoint &&
    !doesLinePassThroughWalls lastPoint newPoint

/-- The comment-mode left-click branch of `handleMouseDown`
(TileCanvas.tsx): start a new arrow on a valid anchor, or append a
breakpoint when the proposed segment validates. -/
def handleCommentLeftClick (paths : List MapPosition) (st : ArrowDrawState)
    (tilePos : MapPosition) : ArrowDrawState :=
  if isValidArrowPosition paths tilePos then
    if !st.isDrawingArrow then ⟨true, [⟨tilePos.x, tilePos.y⟩]⟩
    else if isValidArrowSegment paths st.currentArrowPoints tilePos then
      ⟨st.isDrawingArrow, st.currentArrowPoints ++ [⟨tilePos.x, tilePos.y⟩]⟩
    else st
  else st

/-- The arrows of the first `comments` layer (the arrow collection the
comment handlers read and write). -/
def commentArrowsOfLayers (layers : List TileLayer) : List CommentArrow :=
  match layers.find? (fun layer => decide (layer.ltype = .comments)) with
  | none => []
  | some l => l.arrows.getD []

/-- The `findIndex`-guarded update of the comment layer shared by
`createArrowFromPoints` and `removeArrowAtPosition`. -/
def modifyCommentLayer (f : TileLayer → TileLayer)
    (layers : List TileLayer) : List TileLayer :=
  match layers.findIdx? (fun layer => decide (layer.ltype = .comments)) with
  | none => layers
  | some idx =>
    match layers[idx]? with
    | none => layers
    | some l => layers.set idx (f l)

/-- `createArrowFromPoints` (TileCanvas.tsx).  The fresh arrow id and the
timestamp come from `Date.now()`/`Math.random()` and are passed in as the
parameters `newId` and `now`. -/
def createArrowFromPoints (selectedArrowColor : String) (newId : String)
    (now : Int) (points : List MapPosition) (m : MapData) : MapData :=
  if (m.layers.find? (fun layer => decide (layer.ltype = .comments))).isNone ∨
     points.length < 2 then m
  else
    let centerPoints := points.map fun point => getTileCenterPosition point
    let newArrow : CommentArrow :=
      ⟨newId, centerPoints, selectedArrowColor, 10, now⟩
    let newLayers :=
      modifyCommentLayer
        (fun l => { l with arrows := some (l.arrows.getD [] ++ [newArrow]) })
        m.layers
    { m with layers := newLayers }

/-- `removeArrowAtPosition` (TileCanvas.tsx): removes every arrow with a
point within Manhattan distance 1 of the clicked cell. -/
def removeArrowAtPosition (tilePos : MapPosition) (m : MapData) : MapData :=
  match m.layers.find? (fun layer => decide (layer.ltype = .comments)) with
  | none => m
  | some commentLayer =>
    match commentLayer.arrows with
    | none => m
    | some arrows =>
      let clickedCenter := getTileCenterPosition tilePos
      let arrowsToRemove := arrows.filter fun arrow =>
        arrow.points.any fun point =>
          (point.x - clickedCenter.x).natAbs + (point.y - clickedCenter.y).natAbs ≤ 1
      if 0 < arrowsToRemove.length then
        let remainingArrows := arrows.filter fun arrow =>
          !arrowsToRemove.any fun toRemove => toRemove.id == arrow.id
        let newLayers :=
          modifyCommentLayer (fun l => { l with arrows := some remainingArrows })
            m.layers
        { m with layers := newLayers }
      else m

/-- The comment-mode right-click branch of `handleMouseDown`
(TileCanvas.tsx): finalize the in-progress arrow, or remove arrows at the
clicked position. -/
def handleCommentRightClick (selectedArrowColor newId : String) (now : Int)
    (tilePos : MapPosition) (st : ArrowDrawState) (m : MapData) :
    ArrowDrawState × MapData :=
  if st.isDrawingArrow && 0 < st.currentArrowPoints.length then
    (⟨false, []⟩,
     createArrowFromPoints selectedArrowColor newId now st.currentArrowPoints m)
  else (st, removeArrowAtPosition tilePos m)

/-- `calculatePerpendicularOffset` (TileCanvas.tsx): perpendicular of the
segment scaled to `offsetDistance`.  The source computes with JS doubles;
the embedding idealizes the arithmetic over `ℝ`. -/
noncomputable def calculatePerpendicularOffset (point1 point2 : MapPosition)
    (offsetDistance : ℝ) : ℝ × ℝ :=
  let dx : ℝ := ((point2.x - point1.x : Int) : ℝ)
  let dy : ℝ := ((point2.y - point1.y : Int) : ℝ)
  let length := Real.sqrt (dx * dx + dy * dy)
  if length = 0 then (0, 0)
  else (-dy / length * offsetDistance, dx / length * offsetDistance)

/-- The body of the `forEach` of `calculateArrowOffsets` (TileCanvas.tsx)
for the arrow at collection index `arrowIndex`: one offset per point. -/
noncomputable def arrowOffsetPoints (arrows : List CommentArrow)
    (arrowIndex : ℕ) (arrow : CommentArrow) : List (ℝ × ℝ) :=
  arrow.points.enum.map fun pair =>
    let i := pair.1
    let currentPoint := pair.2
    let overlappingArrows := arrows.enum.filter fun other =>
      if arrowIndex ≤ other.1 then false
      else other.2.points.any fun otherPoint =>
        (otherPoint.x - currentPoint.x).natAbs ≤ 1 &&
        (otherPoint.y - currentPoint.y).natAbs ≤ 1
    if 0 < overlappingArrows.length ∧ 0 < i then
      match arrow.points[i - 1]? with
      | none => (0, 0)
      | some prevPoint =>
        let perpOffset := calculatePerpendicularOffset prevPoint currentPoint 12
        let side : ℝ := if arrowIndex % 2 = 0 then 1 else -1
        let scale : ℝ := ((arrowIndex / 2 + 1 : ℕ) : ℝ)
        (perpOffset.1 * side * scale, perpOffset.2 * side * scale)
    else (0, 0)

/-- `calculateArrowOffsets` (TileCanvas.tsx): the offset map, keyed in the
source by `arrow.id` via `Map.set` in collection order; modelled as the
association list in that order. -/
noncomputable def calculateArrowOffsets (arrows : List CommentArrow) :
    List (String × List (ℝ × ℝ)) :=
  arrows.enum.map fun pair => (pair.2.id, arrowOffsetPoints arrows pair.1 pair.2)

/-! Claim-side vocabulary.  The spec's sub-position classification (§3) is
stated with the mathematical `%` (`Int.emod`), which on the grid's
non-negative fine coordinates agrees with the JS remainder (`Int.tmod`)
used by the code. -/

/-- Claim-side (spec §3): the fine cell is a CORNER of its 3×3 block. -/
def IsCornerFine (p : MapPosition) : Prop :=
  (p.x % 3 = 0 ∨ p.x % 3 = 2) ∧ (p.y % 3 = 0 ∨ p.y % 3 = 2)

instance (p : MapPosition) : Decidable (IsCornerFine p) :=
  inferInstanceAs (Decidable (And _ _))

/-- Claim-side (spec §3): the fine cell is the CENTER of its 3×3 block. -/
def IsCenterFine (p : MapPosition) : Prop :=
  p.x % 3 = 1 ∧ p.y % 3 = 1

instance (p : MapPosition) : Decidable (IsCenterFine p) :=
  inferInstanceAs (Decidable (And _ _))

/-- Claim-side (spec §3): the fine cell is an EDGE cell of its 3×3
block. -/
def IsEdgeFine (p : MapPosition) : Prop :=
  (p.x % 3 = 1 ∧ (p.y % 3 = 0 ∨ p.y % 3 = 2)) ∨
  (p.y % 3 = 1 ∧ (p.x % 3 = 0 ∨ p.x % 3 = 2))

instance (p : MapPosition) : Decidable (IsEdgeFine p) :=
  inferInstanceAs (Decidable (Or _ _))

/-- Claim-side (spec §3): the containing logical coordinate,
`floor(fine / 3)` per axis. -/
def logicalOfFine (p : MapPosition) : MapPosition :=
  ⟨p.x.fdiv 3, p.y.fdiv 3⟩

/-- Claim-side (spec §4.5): the unit perpendicular of a segment.  On a
degenerate segment Lean's division by zero yields `(0, 0)`, matching the
source's explicit zero-length guard. -/
noncomputable def unitPerpendicular (point1 point2 : MapPosition) : ℝ × ℝ :=
  let dx : ℝ := ((point2.x - point1.x : Int) : ℝ)
  let dy : ℝ := ((point2.y - point1.y : Int) : ℝ)
  let length := Real.sqrt (dx * dx + dy * dy)
  (-dy / length, dx / length)

/-- Claim-side (spec §4.5): the offset the solver is claimed to produce at
an overlapping point of the arrow at collection index `arrowIndex`: the
unit perpendicular scaled by 12 pixels, sign alternating with the index's
parity, magnitude further scaled by `arrowIndex / 2 + 1`. -/
noncomputable def claimedOffset (prevPoint currentPoint : MapPosition)
    (arrowIndex : ℕ) : ℝ × ℝ :=
  let u := unitPerpendicular prevPoint currentPoint
  let sign : ℝ := if arrowIndex % 2 = 0 then 1 else -1
  let scale : ℝ := ((arrowIndex / 2 + 1 : ℕ) : ℝ)
  (u.1 * 12 * sign * scale, u.2 * 12 * sign * scale)

/-- Claim-side: some arrow earlier in the collection has a point within
Chebyshev distance 1 of `currentPoint`. -/
def OverlapsEarlierArrow (arrows : List CommentArrow) (arrowIndex : ℕ)
    (currentPoint : MapPosition) : Prop :=
  ∃ j a, j < arrowIndex ∧ arrows[j]? = some a ∧
    ∃ q ∈ a.points, (q.x - currentPoint.x).natAbs ≤ 1 ∧
      (q.y - currentPoint.y).natAbs ≤ 1

/-! Helper lemmas. -/

lemma tmod3_eq_emod {a : Int} (h : 0 ≤ a) : a.tmod 3 = a % 3 :=
  Int.tmod_eq_emod h (by norm_num)

lemma fdiv3_eq_ediv (a : Int) : a.fdiv 3 = a / 3 :=
  Int.fdiv_eq_ediv a (by norm_num)

lemma anyPos_iff (paths : List MapPosition) (a b : Int) :
    (paths.any fun p => p.x == a && p.y == b) = true ↔
      (⟨a, b⟩ : MapPosition) ∈ paths := by
  rw [List.any_eq_true]
  constructor
  · rintro ⟨p, hp, hpe⟩
    simp only [Bool.and_eq_true, beq_iff_eq] at hpe
    obtain ⟨h1, h2⟩ := hpe
    have hpa : p = ⟨a, b⟩ := by cases p; simp_all
    rwa [hpa] at hp
  · intro h
    exact ⟨⟨a, b⟩, h, by simp⟩

/-! Concrete fixtures used by witnesses and counterexamples. -/

/-- A 3×3 test map with a single empty `tiles` layer. -/
def exLayer : TileLayer :=
  ⟨.tiles, [[none, none, none], [none, none, none], [none, none, none]], none⟩

/-- Test editor state over `exLayer` with no paths. -/
def exState : EditorState := ⟨⟨3, 3, [exLayer]⟩, [], []⟩

/-- A normal-class (non-edge) tile. -/
def exTileNormal : Tile := ⟨"map_floor1", false⟩

/-- An edge-class tile. -/
def exTileDoor : Tile := ⟨"map_door2", true⟩

/-- Test editor state whose path set holds the logical origin block. -/
def exStateWithPath : EditorState := { exState with paths := [⟨0, 0⟩] }

/-- C2: for a tile placement, a normal-class tile resolves to the
containing block's CENTER fine cell regardless of the clicked sub-cell;
an edge-class tile resolves to the clicked cell when that cell is an EDGE
cell, and to the block's top-edge cell when the clicked cell is the
block's CENTER. -/
theorem claim_C2_target_resolution (t : Tile) (mode : DrawingMode)
    (p : MapPosition) (hx : 0 ≤ p.x) (hy : 0 ≤ p.y) :
    (t.isEdge = false →
      getTargetPosition (some t) mode p =
        ⟨p.x.fdiv 3 * 3 + 1, p.y.fdiv 3 * 3 + 1⟩) ∧
    (t.isEdge = true → IsEdgeFine p →
      getTargetPosition (some t) mode p = p) ∧
    (t.isEdge = true → IsCenterFine p →
      getTargetPosition (some t) mode p =
        ⟨p.x.fdiv 3 * 3 + 1, p.y.fdiv 3 * 3 + 0⟩) := by
  refine ⟨fun hn => ?_, fun he hedge => ?_, fun he hc => ?_⟩
  · simp [getTargetPosition, hn]
  · have hx3 := tmod3_eq_emod hx
    have hy3 := tmod3_eq_emod hy
    rcases hedge with ⟨h1, h2⟩ | ⟨h1, h2⟩
    · rcases h2 with h2 | h2 <;>
        simp [getTargetPosition, he, hx3, hy3, h1, h2]
    · rcases h2 with h2 | h2 <;>
        simp [getTargetPosition, he, hx3, hy3, h1, h2]
  · have hx3 := tmod3_eq_emod hx
    have hy3 := tmod3_eq_emod hy
    obtain ⟨h1, h2⟩ := hc
    simp [getTargetPosition, he, hx3, hy3, h1, h2]

/-- Witness for C2 at concrete inputs: a normal tile clicked at the edge
cell (4,3) targets the centre (4,4); the door tile clicked at the edge
cell (4,3) stays there; the door tile clicked at the centre (4,4) targets
the top edge (4,3). -/
theorem claim_C2_witness :
    (0 ≤ (4 : Int) ∧ 0 ≤ (3 : Int)) ∧
    getTargetPosition (some exTileNormal) .tile ⟨4, 3⟩ = ⟨4, 4⟩ ∧
    getTargetPosition (some exTileDoor) .tile ⟨4, 3⟩ = ⟨4, 3⟩ ∧
    getTargetPosition (some exTileDoor) .tile ⟨4, 4⟩ = ⟨4, 3⟩ := by
  refine ⟨⟨by decide, by decide⟩, ?_, ?_, ?_⟩
  · exact (claim_C2_target_resolution exTileNormal .tile ⟨4, 3⟩
      (by decide) (by decide)).1 (by decide)
  · exact (claim_C2_target_resolution exTileDoor .tile ⟨4, 3⟩
      (by decide) (by decide)).2.1 (by decide) (by decide)
  · exact (claim_C2_target_resolution exTileDoor .tile ⟨4, 4⟩
      (by decide) (by decide)).2.2 (by decide) (by decide)

/-- Claim-side (spec §4.4b–c): the segment is axis-aligned with exactly
one of the two deltas zero and the other non-zero. -/
def AxisAligned (a b : MapPosition) : Prop :=
  (a.y = b.y ∧ a.x ≠ b.x) ∨ (a.x = b.x ∧ a.y ≠ b.y)

instance (a b : MapPosition) : Decidable (AxisAligned a b) :=
  inferInstanceAs (Decidable (Or _ _))

lemma cornerBool_iff (p : MapPosition) (hx : 0 ≤ p.x) (hy : 0 ≤ p.y) :
    (((p.x.tmod 3 == 0 || p.x.tmod 3 == 2) &&
      (p.y.tmod 3 == 0 || p.y.tmod 3 == 2)) = true) ↔ IsCornerFine p := by
  rw [tmod3_eq_emod hx, tmod3_eq_emod hy]
  simp [IsCornerFine]

lemma isValidArrowPosition_iff (paths : List MapPosition) (p : MapPosition)
    (hx : 0 ≤ p.x) (hy : 0 ≤ p.y) :
    isValidArrowPosition paths p = true ↔
      ¬IsCornerFine p ∧ logicalOfFine p ∈ paths := by
  unfold isValidArrowPosition
  cases hb : ((p.x.tmod 3 == 0 || p.x.tmod 3 == 2) &&
      (p.y.tmod 3 == 0 || p.y.tmod 3 == 2)) with
  | true =>
    have hc : IsCornerFine p := (cornerBool_iff p hx hy).1 hb
    simp [hb, hc]
  | false =>
    have hc : ¬IsCornerFine p := by
      rw [← cornerBool_iff p hx hy]
      simp [hb]
    simp only [hb]
    simpa [hc, logicalOfFine] using anyPos_iff paths (p.x.fdiv 3) (p.y.fdiv 3)

lemma isStraightLine_iff (a b : MapPosition) :
    isStraightLine a b = true ↔ AxisAligned a b := by
  simp only [isStraightLine, getTileCenterPosition, AxisAligned,
    Bool.or_eq_true, Bool.and_eq_true, beq_iff_eq, Int.natAbs_pos, ne_eq,
    sub_eq_zero, decide_eq_true_eq]

lemma adjacent_iff (a b : MapPosition) :
    arePointsAdjacentAndAligned a b = true ↔ AxisAligned a b := by
  simp only [arePointsAdjacentAndAligned, getTileCenterPosition, AxisAligned,
    Bool.or_eq_true, Bool.and_eq_true, beq_iff_eq, Int.natAbs_pos,
    Int.natAbs_eq_zero, ne_eq, sub_eq_zero, decide_eq_true_eq]
  omega

lemma walls_false_of_straight (a b : MapPosition)
    (h : isStraightLine a b = true) : doesLinePassThroughWalls a b = false := by
  have hax := (isStraightLine_iff a b).1 h
  unfold doesLinePassThroughWalls getTileCenterPosition
  rcases hax with ⟨h1, h2⟩ | ⟨h1, h2⟩ <;> simp [h1, h2, h]

/-- C5: for every cell in the path set and every side, `drawPathWalls`
draws the wall on that side iff the neighbouring logical coordinate in
that direction is not in the path set; consequently two adjacent path
cells have no wall on the sides facing each other. -/
theorem claim_C5_wall_sides (paths : List MapPosition) (p : MapPosition)
    (d : Direction) (hp : p ∈ paths) :
    (drawsWallOnSide paths p d = true ↔ neighborIn p d ∉ paths) ∧
    (∀ q ∈ paths, q = neighborIn p d →
      drawsWallOnSide paths p d = false ∧
      drawsWallOnSide paths q (oppositeDirection d) = false) := by
  have key : ∀ r : MapPosition, ∀ d1 : Direction,
      hasPathConnection paths r d1 = true ↔ neighborIn r d1 ∈ paths := by
    intro r d1
    simpa [hasPathConnection, neighborIn] using
      anyPos_iff paths (r.x + (directionDelta d1).x) (r.y + (directionDelta d1).y)
  constructor
  · constructor
    · intro hw hmem
      have hcon := (key p d).2 hmem
      simp [drawsWallOnSide, hcon] at hw
    · intro hmem
      cases hcon : hasPathConnection paths p d with
      | false => simp [drawsWallOnSide, hcon]
      | true => exact absurd ((key p d).1 hcon) hmem
  · intro q hq hqe
    have hback : neighborIn q (oppositeDirection d) = p := by
      subst hqe
      cases d <;> simp [neighborIn, oppositeDirection, directionDelta]
    constructor
    · have hcon : hasPathConnection paths p d = true := (key p d).2 (hqe ▸ hq)
      simp [drawsWallOnSide, hcon]
    · have hcon : hasPathConnection paths q (oppositeDirection d) = true :=
        (key q (oppositeDirection d)).2 (by rw [hback]; exact hp)
      simp [drawsWallOnSide, hcon]

/-- Witness for C5 at a concrete path set: two horizontally adjacent path
cells. -/
theorem claim_C5_witness :
    (⟨0, 0⟩ : MapPosition) ∈ [(⟨0, 0⟩ : MapPosition), ⟨1, 0⟩] ∧
    ((drawsWallOnSide [⟨0, 0⟩, ⟨1, 0⟩] ⟨0, 0⟩ .right = true ↔
        neighborIn ⟨0, 0⟩ .right ∉ [(⟨0, 0⟩ : MapPosition), ⟨1, 0⟩]) ∧
      (∀ q ∈ [(⟨0, 0⟩ : MapPosition), ⟨1, 0⟩], q = neighborIn ⟨0, 0⟩ .right →
        drawsWallOnSide [⟨0, 0⟩, ⟨1, 0⟩] ⟨0, 0⟩ .right = false ∧
        drawsWallOnSide [⟨0, 0⟩, ⟨1, 0⟩] q (oppositeDirection .right) = false)) :=
  ⟨by decide, claim_C5_wall_sides [⟨0, 0⟩, ⟨1, 0⟩] ⟨0, 0⟩ .right (by decide)⟩

/-- C4: while an arrow is in progress, a proposed next point is appended
iff its containing logical cell is in the path set, it is not a CORNER,
and the segment from the last accepted point is axis-aligned with exactly
one zero delta; straight segments are never rejected for wall crossing;
a rejected proposal leaves the point sequence and the drawing flag
unchanged. -/
theorem claim_C4_segment_validation (paths : List MapPosition)
    (st : ArrowDrawState) (p lastPoint : MapPosition)
    (hdraw : st.isDrawingArrow = true)
    (hlast : st.currentArrowPoints.getLast? = some lastPoint)
    (hx : 0 ≤ p.x) (hy : 0 ≤ p.y) :
    ((handleCommentLeftClick paths st p).isDrawingArrow = true) ∧
    ((handleCommentLeftClick paths st p).currentArrowPoints =
        st.currentArrowPoints ++ [p] ↔
      (logicalOfFine p ∈ paths ∧ ¬IsCornerFine p ∧ AxisAligned lastPoint p)) ∧
    (¬(logicalOfFine p ∈ paths ∧ ¬IsCornerFine p ∧ AxisAligned lastPoint p) →
      (handleCommentLeftClick paths st p).currentArrowPoints =
        st.currentArrowPoints) ∧
    (∀ q1 q2 : MapPosition, isStraightLine q1 q2 = true →
      doesLinePassThroughWalls q1 q2 = false) := by
  have hred : handleCommentLeftClick paths st p =
      if (isValidArrowPosition paths p &&
          isValidArrowSegment paths st.currentArrowPoints p) = true
      then ⟨st.isDrawingArrow, st.currentArrowPoints ++ [⟨p.x, p.y⟩]⟩
      else st := by
    unfold handleCommentLeftClick
    rw [hdraw]
    cases hvp : isValidArrowPosition paths p <;>
      cases hs : isValidArrowSegment paths st.currentArrowPoints p <;> simp
  have hseg : isValidArrowSegment paths st.currentArrowPoints p = true ↔
      ((¬IsCornerFine p ∧ logicalOfFine p ∈ paths) ∧ AxisAligned lastPoint p) := by
    unfold isValidArrowSegment
    rw [hlast]
    simp only [Bool.and_eq_true, Bool.not_eq_true',
      isValidArrowPosition_iff paths p hx hy, isStraightLine_iff, adjacent_iff]
    constructor
    · rintro ⟨⟨⟨hv, hs⟩, _⟩, _⟩
      exact ⟨hv, hs⟩
    · rintro ⟨hv, hs⟩
      exact ⟨⟨⟨hv, hs⟩, hs⟩,
        walls_false_of_straight _ _ ((isStraightLine_iff _ _).2 hs)⟩
  have hvs : (isValidArrowPosition paths p &&
      isValidArrowSegment paths st.currentArrowPoints p) = true ↔
      (logicalOfFine p ∈ paths ∧ ¬IsCornerFine p ∧ AxisAligned lastPoint p) := by
    rw [Bool.and_eq_true, hseg, isValidArrowPosition_iff paths p hx hy]
    tauto
  have hne : st.currentArrowPoints ≠ st.currentArrowPoints ++ [p] := by
    intro h
    have hlen := congrArg List.length h
    simp at hlen
  cases hcond : (isValidArrowPosition paths p &&
      isValidArrowSegment paths st.currentArrowPoints p) with
  | true =>
    rw [hred]
    simp only [hcond, if_true]
    refine ⟨hdraw, ?_, ?_, fun q1 q2 => walls_false_of_straight q1 q2⟩
    · constructor
      · intro _
        exact hvs.1 hcond
      · intro _
        trivial
    · intro hnc
      exact absurd (hvs.1 hcond) hnc
  | false =>
    rw [hred]
    simp only [hcond, Bool.false_eq_true, if_false]
    refine ⟨hdraw, ?_, ?_, fun q1 q2 => walls_false_of_straight q1 q2⟩
    · constructor
      · intro h
        exact absurd h hne
      · intro hc
        have hcontr := hvs.2 hc
        simp [hcond] at hcontr
    · intro _
      trivial

/-- Witness for C4 at concrete inputs: drawing from (10,10) with the path
block (3,3) marked, proposing (9,10). -/
theorem claim_C4_witness :
    ((⟨true, [⟨10, 10⟩]⟩ : ArrowDrawState).isDrawingArrow = true ∧
     (⟨true, [⟨10, 10⟩]⟩ : ArrowDrawState).currentArrowPoints.getLast? =
       some ⟨10, 10⟩ ∧ 0 ≤ (9 : Int) ∧ 0 ≤ (10 : Int)) ∧
    ((handleCommentLeftClick [⟨3, 3⟩] ⟨true, [⟨10, 10⟩]⟩
        ⟨9, 10⟩).isDrawingArrow = true) ∧
    ((handleCommentLeftClick [⟨3, 3⟩] ⟨true, [⟨10, 10⟩]⟩
        ⟨9, 10⟩).currentArrowPoints = [⟨10, 10⟩] ++ [⟨9, 10⟩] ↔
      (logicalOfFine ⟨9, 10⟩ ∈ [(⟨3, 3⟩ : MapPosition)] ∧
        ¬IsCornerFine ⟨9, 10⟩ ∧ AxisAligned ⟨10, 10⟩ ⟨9, 10⟩)) := by
  have h := claim_C4_segment_validation [⟨3, 3⟩] ⟨true, [⟨10, 10⟩]⟩
    ⟨9, 10⟩ ⟨10, 10⟩ (by decide) (by decide) (by decide) (by decide)
  exact ⟨⟨by decide, by decide, by decide, by decide⟩, h.1, h.2.1⟩

lemma addPathPoint_mapData (st : Option Tile) (mode : DrawingMode)
    (p : MapPosition) (f : Bool) (s : EditorState) :
    (addPathPoint st mode p f s).mapData = s.mapData := by
  simp only [addPathPoint]
  repeat' split
  all_goals rfl

lemma removePathPoint_mapData (p : MapPosition) (s : EditorState) :
    (removePathPoint p s).mapData = s.mapData := by
  simp only [removePathPoint]
  repeat' split
  all_goals rfl

lemma posPred_iff (q k : MapPosition) :
    ((q.x == k.x && q.y == k.y) = true) ↔ q = k := by
  cases q
  cases k
  simp [MapPosition.mk.injEq]

lemma findIdx?_eraseIdx_none {l : List MapPosition} {k : MapPosition}
    {i : ℕ} (hnd : l.Nodup)
    (h : l.findIdx? (fun q => q.x == k.x && q.y == k.y) = some i) :
    (l.eraseIdx i).findIdx? (fun q => q.x == k.x && q.y == k.y) = none := by
  rw [List.findIdx?_eq_some_iff_getElem] at h
  obtain ⟨hi, hpi, _⟩ := h
  have hk : l[i] = k := (posPred_iff _ _).1 hpi
  rw [List.findIdx?_eq_none_iff]
  intro x hx
  rcases List.mem_eraseIdx_iff_getElem.1 hx with ⟨j, hj, hji, hjx⟩
  by_contra hpx
  rw [Bool.not_eq_false] at hpx
  have hxk : x = k := (posPred_iff _ _).1 hpx
  have hjk : l[j] = l[i] := by rw [hjx, hxk, hk]
  exact hji ((hnd.getElem_inj_iff).1 hjk)

/-- When the bounds check, the placement gate and the drag-suppression
check all pass, `addPathPoint` extends `processedCells` with the cell key
(if new) and `paths` with the logical coordinate (if new). -/
lemma addPathPoint_proceed (st : Option Tile) (mode : DrawingMode)
    (p : MapPosition) (f : Bool) (s : EditorState)
    (hb : ¬(p.x < 0 ∨ s.mapData.width ≤ p.x ∨
        p.y < 0 ∨ s.mapData.height ≤ p.y))
    (hn : ¬getExpandedPlacementType st mode p ≠ PlacementType.normal)
    (hk : ¬(!f && s.processedCells.contains ⟨p.x.fdiv 3, p.y.fdiv 3⟩) = true) :
    addPathPoint st mode p f s =
      { s with
        processedCells :=
          if s.processedCells.contains ⟨p.x.fdiv 3, p.y.fdiv 3⟩ then
            s.processedCells
          else s.processedCells ++ [⟨p.x.fdiv 3, p.y.fdiv 3⟩]
        paths :=
          if s.paths.any (fun q => q.x == p.x.fdiv 3 && q.y == p.y.fdiv 3) then
            s.paths
          else s.paths ++ [⟨p.x.fdiv 3, p.y.fdiv 3⟩] } := by
  unfold addPathPoint
  rw [if_neg hb, if_neg hn, if_neg hk]
  split <;> split <;> rfl

/-- `addPathPoint` is a complete no-op when the key is already in
`processedCells` and the coordinate already in `paths`. -/
lemma addPathPoint_noop (st : Option Tile) (mode : DrawingMode)
    (p : MapPosition) (f : Bool) (s1 : EditorState)
    (hb : ¬(p.x < 0 ∨ s1.mapData.width ≤ p.x ∨
        p.y < 0 ∨ s1.mapData.height ≤ p.y))
    (hcont : s1.processedCells.contains
      (⟨p.x.fdiv 3, p.y.fdiv 3⟩ : MapPosition) = true)
    (hany : (s1.paths.any fun q =>
      q.x == p.x.fdiv 3 && q.y == p.y.fdiv 3) = true) :
    addPathPoint st mode p f s1 = s1 := by
  have hmem : (⟨p.x.fdiv 3, p.y.fdiv 3⟩ : MapPosition) ∈ s1.processedCells := by
    simpa using hcont
  unfold addPathPoint
  rw [if_neg hb]
  by_cases hn : getExpandedPlacementType st mode p ≠ PlacementType.normal
  · rw [if_pos hn]
  · rw [if_neg hn]
    cases f <;> simp [hcont, hany, hmem]

/-- C8: path-set addition and removal are idempotent — repeating the same
add request leaves the path set as after one add, and likewise for
removal (the path set holds unique coordinates, hence the `Nodup`
hypothesis). -/
theorem claim_C8_idempotence (st : Option Tile) (mode : DrawingMode)
    (f : Bool) (p : MapPosition) (s : EditorState) (hnd : s.paths.Nodup) :
    (addPathPoint st mode p f (addPathPoint st mode p f s)).paths =
      (addPathPoint st mode p f s).paths ∧
    (removePathPoint p (removePathPoint p s)).paths =
      (removePathPoint p s).paths := by
  constructor
  · by_cases hb : (p.x < 0 ∨ s.mapData.width ≤ p.x ∨
        p.y < 0 ∨ s.mapData.height ≤ p.y)
    · have h1 : addPathPoint st mode p f s = s := by
        unfold addPathPoint
        rw [if_pos hb]
      rw [h1, h1]
    · by_cases hn : getExpandedPlacementType st mode p ≠ PlacementType.normal
      · have h1 : addPathPoint st mode p f s = s := by
          unfold addPathPoint
          rw [if_neg hb, if_pos hn]
        rw [h1, h1]
      · by_cases hk : (!f && s.processedCells.contains
            ⟨p.x.fdiv 3, p.y.fdiv 3⟩) = true
        · have h1 : addPathPoint st mode p f s = s := by
            unfold addPathPoint
            rw [if_neg hb, if_neg hn, if_pos hk]
          rw [h1, h1]
        · rw [addPathPoint_proceed st mode p f s hb hn hk]
          have hcont1 : (if s.processedCells.contains
                (⟨p.x.fdiv 3, p.y.fdiv 3⟩ : MapPosition) then
                s.processedCells
              else s.processedCells ++
                [(⟨p.x.fdiv 3, p.y.fdiv 3⟩ : MapPosition)]).contains
              (⟨p.x.fdiv 3, p.y.fdiv 3⟩ : MapPosition) = true := by
            split
            · assumption
            · simp
          have hany1 : ((if s.paths.any
                  (fun q => q.x == p.x.fdiv 3 && q.y == p.y.fdiv 3) then
                s.paths
              else s.paths ++
                [(⟨p.x.fdiv 3, p.y.fdiv 3⟩ : MapPosition)]).any
              fun q => q.x == p.x.fdiv 3 && q.y == p.y.fdiv 3) = true := by
            split
            · assumption
            · simp
          have hnoop := addPathPoint_noop st mode p f
            ⟨s.mapData,
             (if s.paths.any (fun q => q.x == p.x.fdiv 3 && q.y == p.y.fdiv 3)
                then s.paths
                else s.paths ++ [⟨p.x.fdiv 3, p.y.fdiv 3⟩]),
             (if s.processedCells.contains ⟨p.x.fdiv 3, p.y.fdiv 3⟩
                then s.processedCells
                else s.processedCells ++ [⟨p.x.fdiv 3, p.y.fdiv 3⟩])⟩
            hb hcont1 hany1
          rw [hnoop]
  · by_cases hb : (p.x < 0 ∨ s.mapData.width ≤ p.x ∨
        p.y < 0 ∨ s.mapData.height ≤ p.y)
    · have h1 : removePathPoint p s = s := by
        unfold removePathPoint
        rw [if_pos hb]
      rw [h1, h1]
    · cases hfind : s.paths.findIdx?
        (fun q => q.x == p.x.fdiv 3 && q.y == p.y.fdiv 3) with
      | none =>
        have h1 : removePathPoint p s = s := by
          unfold removePathPoint
          rw [if_neg hb]
          simp only [hfind]
        rw [h1, h1]
      | some i =>
        have h1 : removePathPoint p s =
            { s with paths := s.paths.eraseIdx i } := by
          unfold removePathPoint
          rw [if_neg hb]
          simp only [hfind]
        rw [h1]
        have hnone := findIdx?_eraseIdx_none
          (k := ⟨p.x.fdiv 3, p.y.fdiv 3⟩) hnd hfind
        unfold removePathPoint
        rw [if_neg hb]
        simp only [hnone]

/-- Witness for C8 at a concrete state: repeating an add and a remove of
the origin block on a one-element path set. -/
theorem claim_C8_witness :
    [(⟨0, 0⟩ : MapPosition)].Nodup ∧
    ((addPathPoint none .path ⟨1, 1⟩ true
        (addPathPoint none .path ⟨1, 1⟩ true exStateWithPath)).paths =
      (addPathPoint none .path ⟨1, 1⟩ true exStateWithPath).paths ∧
     (removePathPoint ⟨1, 1⟩ (removePathPoint ⟨1, 1⟩ exStateWithPath)).paths =
      (removePathPoint ⟨1, 1⟩ exStateWithPath).paths) :=
  ⟨by decide,
    claim_C8_idempotence none .path true ⟨1, 1⟩ exStateWithPath (by decide)⟩

lemma placeTile_paths (stl : Option Tile) (mode : DrawingMode) (poly : Bool)
    (p : MapPosition) (s : EditorState) :
    (placeTile stl mode poly p s).paths = s.paths := by
  simp only [placeTile]
  repeat' split
  all_goals rfl

lemma placeTile_processed (stl : Option Tile) (mode : DrawingMode)
    (poly : Bool) (p : MapPosition) (s : EditorState) :
    (placeTile stl mode poly p s).processedCells = s.processedCells := by
  simp only [placeTile]
  repeat' split
  all_goals rfl

lemma removeTile_paths (p : MapPosition) (s : EditorState) :
    (removeTile p s).paths = s.paths := by
  simp only [removeTile]
  repeat' split
  all_goals rfl

lemma expandedType_corner (stl : Option Tile) (mode : DrawingMode)
    (p : MapPosition) (hx : 0 ≤ p.x) (hy : 0 ≤ p.y) (hc : IsCornerFine p) :
    getExpandedPlacementType stl mode p = PlacementType.invalid := by
  have hb := (cornerBool_iff p hx hy).2 hc
  unfold getExpandedPlacementType
  simp only [hb, if_true]

lemma expandedType_path (stl : Option Tile) (p : MapPosition)
    (hx : 0 ≤ p.x) (hy : 0 ≤ p.y) (hc : ¬IsCornerFine p) :
    getExpandedPlacementType stl .path p = PlacementType.normal := by
  have hb : ((p.x.tmod 3 == 0 || p.x.tmod 3 == 2) &&
      (p.y.tmod 3 == 0 || p.y.tmod 3 == 2)) = false := by
    rw [← Bool.not_eq_true, cornerBool_iff p hx hy]
    exact hc
  unfold getExpandedPlacementType
  simp [hb]

/-- Either `placeTile` rejects (result exactly `s`), or all of its guards
passed and it writes the tile identifier at the resolved target cell of
the first layer. -/
lemma placeTile_cases (t : Tile) (mode : DrawingMode) (poly : Bool)
    (p : MapPosition) (s : EditorState) :
    placeTile (some t) mode poly p s = s ∨
    (∃ currentLayer rest, s.mapData.layers = currentLayer :: rest ∧
      ¬(p.x < 0 ∨ s.mapData.width ≤ p.x ∨ p.y < 0 ∨ s.mapData.height ≤ p.y) ∧
      isValidPlacement (getTargetPosition (some t) mode p).x
        (getTargetPosition (some t) mode p).y = true ∧
      ¬(getExpandedPlacementType (some t) mode p = PlacementType.edge ∧
        t.isEdge = false) ∧
      ¬(getExpandedPlacementType (some t) mode p = PlacementType.normal ∧
        t.isEdge = true) ∧
      placeTile (some t) mode poly p s =
        { s with mapData :=
            { s.mapData with layers :=
                { currentLayer with tiles :=
                    (currentLayer.tiles.set
                      (getTargetPosition (some t) mode p).y.toNat
                      ((currentLayer.tiles.getD
                        (getTargetPosition (some t) mode p).y.toNat []).set
                        (getTargetPosition (some t) mode p).x.toNat
                        (some t.id))) } :: rest } }) := by
  have hred : placeTile (some t) mode poly p s =
      if p.x < 0 ∨ s.mapData.width ≤ p.x ∨ p.y < 0 ∨ s.mapData.height ≤ p.y
      then s
      else if (poly && !isPositionOnPath s.paths p) = true then s
      else if (!isValidPlacement (getTargetPosition (some t) mode p).x
          (getTargetPosition (some t) mode p).y) = true then s
      else if getExpandedPlacementType (some t) mode p = PlacementType.edge ∧
          t.isEdge = false then s
      else if getExpandedPlacementType (some t) mode p = PlacementType.normal ∧
          t.isEdge = true then s
      else
        match s.mapData.layers with
        | [] => s
        | currentLayer :: rest =>
          { s with mapData :=
              { s.mapData with layers :=
                  { currentLayer with tiles :=
                      (currentLayer.tiles.set
                        (getTargetPosition (some t) mode p).y.toNat
                        ((currentLayer.tiles.getD
                          (getTargetPosition (some t) mode p).y.toNat []).set
                          (getTargetPosition (some t) mode p).x.toNat
                          (some t.id))) } :: rest } } := rfl
  rw [hred]
  split_ifs with hb hpo hv hg1 hg2
  · exact Or.inl rfl
  · exact Or.inl rfl
  · exact Or.inl rfl
  · exact Or.inl rfl
  · exact Or.inl rfl
  · cases hlay : s.mapData.layers with
    | nil =>
      exact Or.inl rfl
    | cons currentLayer rest =>
      refine Or.inr ⟨currentLayer, rest, rfl, hb, ?_, hg1, hg2, rfl⟩
      simpa using hv

/-- The grid write of a successful `placeTile` only affects the target
cell: reading any other non-negative cell of the first layer is
unchanged. -/
lemma placeTile_frame (t : Tile) (mode : DrawingMode) (poly : Bool)
    (p : MapPosition) (s : EditorState) (x y : Int)
    (hx : 0 ≤ x) (hy : 0 ≤ y)
    (hne : ¬(x = (getTargetPosition (some t) mode p).x ∧
      y = (getTargetPosition (some t) mode p).y))
    (htx : 0 ≤ (getTargetPosition (some t) mode p).x)
    (hty : 0 ≤ (getTargetPosition (some t) mode p).y) :
    getTileAt (placeTile (some t) mode poly p s).mapData x y =
      getTileAt s.mapData x y := by
  rcases placeTile_cases t mode poly p s with h | ⟨c, rest, hlay, _, _, _, _, h⟩
  · rw [h]
  · rw [h]
    unfold getTileAt
    rw [hlay]
    have hxy : x.toNat ≠ (getTargetPosition (some t) mode p).x.toNat ∨
        y.toNat ≠ (getTargetPosition (some t) mode p).y.toNat := by
      by_contra hcon
      push_neg at hcon
      apply hne
      constructor
      · omega
      · omega
    rcases hxy with hxx | hyy
    · simp only [List.getD_eq_getElem?_getD, List.getElem?_set]
      split
      · rename_i heq
        split
        · simp only [Option.getD_some, List.getElem?_set]
          rw [if_neg (by omega), heq]
        · rename_i hlen
          rw [← heq]
          conv_rhs => rw [List.getElem?_eq_none
            (show c.tiles.length ≤ (getTargetPosition (some t) mode p).y.toNat
              by omega)]
      · rfl
    · simp only [List.getD_eq_getElem?_getD, List.getElem?_set]
      rw [if_neg (by omega)]

/-- Counterexample to C1 as stated: a tile placement with a normal-class
tile at the CORNER fine cell (0,0) is not rejected — it mutates the tile
grid, writing the identifier at the block's CENTER cell (1,1). -/
theorem claim_C1_counterexample :
    IsCornerFine ⟨0, 0⟩ ∧ exTileNormal.isEdge = false ∧
    getTileAt (placeTile (some exTileNormal) .tile false ⟨0, 0⟩
        exState).mapData 1 1 = some "map_floor1" ∧
    getTileAt exState.mapData 1 1 = none := by
  decide

/-- C1 amended: at a CORNER fine cell, an edge-class tile placement and a
path placement (in any mode) perform no mutation at all, and a tile
placement never mutates the path set; a normal-class tile placement at a
corner, however, is not rejected — it can only write at the containing
block's CENTER cell, leaving every other grid cell unchanged. -/
theorem claim_C1_amended (t : Tile) (stl : Option Tile) (mode : DrawingMode)
    (poly f : Bool) (p : MapPosition) (s : EditorState)
    (hx : 0 ≤ p.x) (hy : 0 ≤ p.y) (hc : IsCornerFine p) :
    (t.isEdge = true → placeTile (some t) mode poly p s = s) ∧
    (addPathPoint stl mode p f s = s) ∧
    ((placeTile (some t) mode poly p s).paths = s.paths) ∧
    (∀ x y : Int, 0 ≤ x → 0 ≤ y →
      ¬(x = p.x.fdiv 3 * 3 + 1 ∧ y = p.y.fdiv 3 * 3 + 1) →
      getTileAt (placeTile (some t) mode poly p s).mapData x y =
        getTileAt s.mapData x y) := by
  have hx3 := tmod3_eq_emod hx
  have hy3 := tmod3_eq_emod hy
  have hxf : 0 ≤ p.x.fdiv 3 := by
    rw [fdiv3_eq_ediv]
    exact Int.ediv_nonneg hx (by norm_num)
  have hyf : 0 ≤ p.y.fdiv 3 := by
    rw [fdiv3_eq_ediv]
    exact Int.ediv_nonneg hy (by norm_num)
  refine ⟨?_, ?_, placeTile_paths _ _ _ _ _, ?_⟩
  · intro he
    -- the resolved target is the corner itself, which fails
    -- `isValidPlacement`
    have htarget : getTargetPosition (some t) mode p = p := by
      unfold getTargetPosition
      obtain ⟨h1, h2⟩ := hc
      have hsub : (p.x.tmod 3 == 1 && p.y.tmod 3 == 1) = false := by
        rw [hx3, hy3]
        rcases h1 with h1 | h1 <;> simp [h1]
      simp [he, hsub]
    have hval : isValidPlacement p.x p.y = false := by
      have hcb := (cornerBool_iff p hx hy).2 hc
      simp only [isValidPlacement]
      rw [hcb]
      rfl
    rcases placeTile_cases t mode poly p s with h | ⟨_, _, _, _, hv, _, _, _⟩
    · exact h
    · rw [htarget, hval] at hv
      cases hv
  · have hinv := expandedType_corner stl mode p hx hy hc
    unfold addPathPoint
    by_cases hb : (p.x < 0 ∨ s.mapData.width ≤ p.x ∨
        p.y < 0 ∨ s.mapData.height ≤ p.y)
    · rw [if_pos hb]
    · rw [if_neg hb, if_pos (by rw [hinv]; exact fun h => PlacementType.noConfusion h)]
  · intro x y hqx hqy hq
    cases het : t.isEdge with
    | true =>
      have hplace : placeTile (some t) mode poly p s = s := by
        have htarget : getTargetPosition (some t) mode p = p := by
          unfold getTargetPosition
          obtain ⟨h1, h2⟩ := hc
          have hsub : (p.x.tmod 3 == 1 && p.y.tmod 3 == 1) = false := by
            rw [hx3, hy3]
            rcases h1 with h1 | h1 <;> simp [h1]
          simp [het, hsub]
        have hval : isValidPlacement p.x p.y = false := by
          have hcb := (cornerBool_iff p hx hy).2 hc
          simp only [isValidPlacement]
          rw [hcb]
          rfl
        rcases placeTile_cases t mode poly p s with h | ⟨_, _, _, _, hv, _, _, _⟩
        · exact h
        · rw [htarget, hval] at hv
          cases hv
      rw [hplace]
    | false =>
      have htarget : getTargetPosition (some t) mode p =
          ⟨p.x.fdiv 3 * 3 + 1, p.y.fdiv 3 * 3 + 1⟩ := by
        unfold getTargetPosition
        simp [het]
      refine placeTile_frame t mode poly p s x y hqx hqy ?_ ?_ ?_
      · rw [htarget]
        intro hcon
        exact hq ⟨by simpa using hcon.1, by simpa using hcon.2⟩
      · rw [htarget]
        simp only []
        omega
      · rw [htarget]
        simp only []
        omega

/-- Witness for C1's amended claim at the corner (0,0) of the test map
with a door tile and cell (0,0) as the unchanged probe. -/
theorem claim_C1_amended_witness :
    (0 ≤ (0 : Int) ∧ IsCornerFine ⟨0, 0⟩) ∧
    (exTileDoor.isEdge = true →
      placeTile (some exTileDoor) .tile false ⟨0, 0⟩ exState = exState) ∧
    (addPathPoint none .path ⟨0, 0⟩ true exState = exState) ∧
    ((placeTile (some exTileDoor) .tile false ⟨0, 0⟩ exState).paths =
      exState.paths) ∧
    (∀ x y : Int, 0 ≤ x → 0 ≤ y → ¬(x = 1 ∧ y = 1) →
      getTileAt (placeTile (some exTileDoor) .tile false ⟨0, 0⟩
          exState).mapData x y =
        getTileAt exState.mapData x y) := by
  have h := claim_C1_amended exTileDoor none .tile false true ⟨0, 0⟩ exState
    (by decide) (by decide) (by decide)
  exact ⟨⟨by decide, by decide⟩, h.1, h.2.1, h.2.2.1, h.2.2.2⟩

/-- Counterexample to C3 as stated: a path-add at the EDGE fine cell
(1,0) — sub-position (1,0), not the CENTER (1,1) — extends the path set,
and a path-remove at the CORNER fine cell (0,0) shrinks it. -/
theorem claim_C3_counterexample :
    ((⟨1, 0⟩ : MapPosition).x % 3 = 1 ∧ (⟨1, 0⟩ : MapPosition).y % 3 = 0) ∧
    (addPathPoint none .path ⟨1, 0⟩ true exState).paths = [⟨0, 0⟩] ∧
    exState.paths = [] ∧
    IsCornerFine ⟨0, 0⟩ ∧
    (removePathPoint ⟨0, 0⟩ exStateWithPath).paths = [] ∧
    exStateWithPath.paths = [⟨0, 0⟩] := by
  decide

/-- C3 amended: a path-add request is gated by the bounds check and by
non-CORNER sub-position (not by CENTER): a corner add is a no-op, while
an accepted add records membership at `floor(fine / 3)`; a path-remove
request is not sub-position-gated at all — at any in-bounds fine cell it
removes `floor(fine / 3)` from the path set when present. -/
theorem claim_C3_amended (p : MapPosition) (s : EditorState) (f : Bool)
    (hx : 0 ≤ p.x) (hy : 0 ≤ p.y) :
    (IsCornerFine p → addPathPoint none .path p f s = s) ∧
    (¬IsCornerFine p →
      ¬(p.x < 0 ∨ s.mapData.width ≤ p.x ∨ p.y < 0 ∨ s.mapData.height ≤ p.y) →
      ¬(!f && s.processedCells.contains ⟨p.x.fdiv 3, p.y.fdiv 3⟩) = true →
      (addPathPoint none .path p f s).paths =
        (if logicalOfFine p ∈ s.paths then s.paths
         else s.paths ++ [logicalOfFine p])) ∧
    (¬(p.x < 0 ∨ s.mapData.width ≤ p.x ∨ p.y < 0 ∨ s.mapData.height ≤ p.y) →
      s.paths.Nodup →
      ∀ q : MapPosition, q ∈ (removePathPoint p s).paths ↔
        (q ∈ s.paths ∧ q ≠ logicalOfFine p)) := by
  refine ⟨?_, ?_, ?_⟩
  · intro hc
    have hinv := expandedType_corner none .path p hx hy hc
    unfold addPathPoint
    by_cases hb : (p.x < 0 ∨ s.mapData.width ≤ p.x ∨
        p.y < 0 ∨ s.mapData.height ≤ p.y)
    · rw [if_pos hb]
    · rw [if_neg hb, if_pos (by rw [hinv]; exact fun h => PlacementType.noConfusion h)]
  · intro hc hb hk
    have hn : ¬getExpandedPlacementType none DrawingMode.path p ≠
        PlacementType.normal := by
      rw [expandedType_path none p hx hy hc]
      exact fun h => h rfl
    rw [addPathPoint_proceed none .path p f s hb hn hk]
    by_cases hm : logicalOfFine p ∈ s.paths
    · have hany : (s.paths.any fun q =>
          q.x == p.x.fdiv 3 && q.y == p.y.fdiv 3) = true :=
        (anyPos_iff s.paths (p.x.fdiv 3) (p.y.fdiv 3)).2 hm
      simp only [hany, if_true, if_pos hm]
    · have hany : (s.paths.any fun q =>
          q.x == p.x.fdiv 3 && q.y == p.y.fdiv 3) = false := by
        rw [← Bool.not_eq_true, anyPos_iff s.paths (p.x.fdiv 3) (p.y.fdiv 3)]
        exact hm
      simp only [hany, Bool.false_eq_true, if_false, if_neg hm]
      rfl
  · intro hb hnd q
    unfold removePathPoint
    rw [if_neg hb]
    cases hfind : s.paths.findIdx?
        (fun q1 => q1.x == p.x.fdiv 3 && q1.y == p.y.fdiv 3) with
    | none =>
      simp only [hfind]
      rw [List.findIdx?_eq_none_iff] at hfind
      constructor
      · intro hq
        refine ⟨hq, fun hqe => ?_⟩
        have := hfind q hq
        rw [hqe] at this
        simp [logicalOfFine] at this
      · exact fun hq => hq.1
    | some i =>
      simp only [hfind]
      rw [List.findIdx?_eq_some_iff_getElem] at hfind
      obtain ⟨hi, hpi, _⟩ := hfind
      have hk : s.paths[i] = logicalOfFine p := (posPred_iff _ _).1 hpi
      constructor
      · intro hq
        rcases List.mem_eraseIdx_iff_getElem.1 hq with ⟨j, hj, hji, hjq⟩
        refine ⟨by rw [← hjq]; exact List.getElem_mem hj, fun hqe => ?_⟩
        apply hji
        apply (hnd.getElem_inj_iff).1
        rw [hjq, hqe, hk]
      · rintro ⟨hq, hqe⟩
        rcases List.mem_iff_getElem.1 hq with ⟨j, hj, hjq⟩
        apply List.mem_eraseIdx_iff_getElem.2
        refine ⟨j, hj, fun hji => ?_, hjq⟩
        apply hqe
        rw [← hjq]
        subst hji
        exact hk

/-- Witness for C3's amended claim at the edge cell (1,0) and the corner
(0,0) over the one-element path state. -/
theorem claim_C3_amended_witness :
    (0 ≤ (1 : Int) ∧ 0 ≤ (0 : Int)) ∧
    (IsCornerFine ⟨1, 0⟩ → addPathPoint none .path ⟨1, 0⟩ true
      exStateWithPath = exStateWithPath) ∧
    (¬IsCornerFine ⟨1, 0⟩ →
      ¬((1 : Int) < 0 ∨ exStateWithPath.mapData.width ≤ 1 ∨
        (0 : Int) < 0 ∨ exStateWithPath.mapData.height ≤ 0) →
      ¬(!true && exStateWithPath.processedCells.contains
        ⟨(1 : Int).fdiv 3, (0 : Int).fdiv 3⟩) = true →
      (addPathPoint none .path ⟨1, 0⟩ true exStateWithPath).paths =
        (if logicalOfFine ⟨1, 0⟩ ∈ exStateWithPath.paths then
          exStateWithPath.paths
         else exStateWithPath.paths ++ [logicalOfFine ⟨1, 0⟩])) ∧
    (¬((1 : Int) < 0 ∨ exStateWithPath.mapData.width ≤ 1 ∨
        (0 : Int) < 0 ∨ exStateWithPath.mapData.height ≤ 0) →
      exStateWithPath.paths.Nodup →
      ∀ q : MapPosition, q ∈ (removePathPoint ⟨1, 0⟩ exStateWithPath).paths ↔
        (q ∈ exStateWithPath.paths ∧ q ≠ logicalOfFine ⟨1, 0⟩)) := by
  have h := claim_C3_amended ⟨1, 0⟩ exStateWithPath true (by decide) (by decide)
  exact ⟨⟨by decide, by decide⟩, h.1, h.2.1, h.2.2⟩

lemma set_getElem_self {α : Type} (l : List α) (i : ℕ) (h : i < l.length) :
    l.set i l[i] = l := by
  apply List.ext_getElem?
  intro j
  rw [List.getElem?_set]
  split
  · rename_i hij
    subst hij
    simp [h]
  · rfl

lemma getTargetPosition_nonneg (stl : Option Tile) (mode : DrawingMode)
    (p : MapPosition) (hx : 0 ≤ p.x) (hy : 0 ≤ p.y) :
    0 ≤ (getTargetPosition stl mode p).x ∧
    0 ≤ (getTargetPosition stl mode p).y := by
  have hxf : 0 ≤ p.x.fdiv 3 := by
    rw [fdiv3_eq_ediv]
    exact Int.ediv_nonneg hx (by norm_num)
  have hyf : 0 ≤ p.y.fdiv 3 := by
    rw [fdiv3_eq_ediv]
    exact Int.ediv_nonneg hy (by norm_num)
  unfold getTargetPosition
  cases stl with
  | none =>
    by_cases hm : mode = DrawingMode.path
    · simp only [hm]
      refine ⟨by simp; omega, by simp; omega⟩
    · simp only [Option.isSome_none, Bool.false_eq_true, if_neg hm]
      simp only [Bool.not_false, Bool.and_true, if_false]
      exact ⟨hx, hy⟩
  | some t =>
    cases het : t.isEdge with
    | true =>
      by_cases hc : (p.x.tmod 3 == 1 && p.y.tmod 3 == 1) = true
      · simp only [het, hc]
        refine ⟨by simp; omega, by simp; omega⟩
      · have hc2 : (p.x.tmod 3 == 1 && p.y.tmod 3 == 1) = false := by
          simpa using hc
        simp only [het, hc2]
        simp only [Bool.false_eq_true, if_false, if_true]
        exact ⟨hx, hy⟩
    | false =>
      simp only [het]
      refine ⟨by simp; omega, by simp; omega⟩

/-- C9: a tile placement that changes the state writes the tile
identifier at the resolved target cell, and that cell's classification
matches the tile's class — an EDGE cell for an edge-class tile, the
block's CENTER cell for a normal tile.  (Equivalently: when the resolved
target's classification does not match, nothing is mutated.) -/
theorem claim_C9_class_match (t : Tile) (mode : DrawingMode) (poly : Bool)
    (p : MapPosition) (s : EditorState)
    (hmut : placeTile (some t) mode poly p s ≠ s) :
    getTileAt (placeTile (some t) mode poly p s).mapData
        (getTargetPosition (some t) mode p).x
        (getTargetPosition (some t) mode p).y = some t.id ∧
    (t.isEdge = true → IsEdgeFine (getTargetPosition (some t) mode p)) ∧
    (t.isEdge = false → IsCenterFine (getTargetPosition (some t) mode p)) := by
  rcases placeTile_cases t mode poly p s with h | ⟨c, rest, hlay, hb, hv, _, _, h⟩
  · exact absurd h hmut
  · push_neg at hb
    obtain ⟨hx0, hxw, hy0, hyh⟩ := hb
    refine ⟨?_, ?_, ?_⟩
    · have hneq : (c.tiles.set (getTargetPosition (some t) mode p).y.toNat
          ((c.tiles.getD (getTargetPosition (some t) mode p).y.toNat []).set
            (getTargetPosition (some t) mode p).x.toNat (some t.id))) ≠
          c.tiles := by
        intro he
        apply hmut
        have heta : ({ c with tiles := c.tiles } : TileLayer) = c := rfl
        rw [h, he, heta, ← hlay]
      have hylen : (getTargetPosition (some t) mode p).y.toNat <
          c.tiles.length := by
        by_contra hcon
        push_neg at hcon
        exact hneq (List.set_eq_of_length_le hcon)
      have hrow : c.tiles.getD (getTargetPosition (some t) mode p).y.toNat [] =
          c.tiles[(getTargetPosition (some t) mode p).y.toNat] := by
        rw [List.getD_eq_getElem?_getD, List.getElem?_eq_getElem hylen]
        rfl
      have hxlen : (getTargetPosition (some t) mode p).x.toNat <
          (c.tiles.getD (getTargetPosition (some t) mode p).y.toNat []).length := by
        by_contra hcon
        push_neg at hcon
        apply hneq
        rw [List.set_eq_of_length_le hcon, hrow, set_getElem_self]
      rw [h]
      show ((c.tiles.set (getTargetPosition (some t) mode p).y.toNat
          ((c.tiles.getD (getTargetPosition (some t) mode p).y.toNat []).set
            (getTargetPosition (some t) mode p).x.toNat (some t.id))).getD
          (getTargetPosition (some t) mode p).y.toNat []).getD
          (getTargetPosition (some t) mode p).x.toNat none = some t.id
      rw [List.getD_eq_getElem?_getD] at hxlen
      simp only [List.getD_eq_getElem?_getD]
      rw [List.getElem?_set_self hylen]
      simp only [Option.getD_some]
      rw [List.getElem?_set_self hxlen]
      rfl
    · intro het
      by_cases hcen : (p.x.tmod 3 == 1 && p.y.tmod 3 == 1) = true
      · have htarget : getTargetPosition (some t) mode p =
            ⟨p.x.fdiv 3 * 3 + 1, p.y.fdiv 3 * 3 + 0⟩ := by
          unfold getTargetPosition
          simp [het, hcen]
        rw [htarget]
        exact Or.inl ⟨by dsimp only; omega, Or.inl (by dsimp only; omega)⟩
      · have hcen2 : (p.x.tmod 3 == 1 && p.y.tmod 3 == 1) = false := by
          simpa using hcen
        have htarget : getTargetPosition (some t) mode p = p := by
          unfold getTargetPosition
          simp [het, hcen2]
        rw [htarget] at hv ⊢
        simp only [isValidPlacement, Bool.not_eq_true'] at hv
        rw [tmod3_eq_emod hx0, tmod3_eq_emod hy0] at hv hcen2
        simp only [Bool.and_eq_false_iff, Bool.or_eq_false_iff,
          beq_eq_false_iff_ne, ne_eq] at hv hcen2
        unfold IsEdgeFine
        omega
    · intro het
      have htarget : getTargetPosition (some t) mode p =
          ⟨p.x.fdiv 3 * 3 + 1, p.y.fdiv 3 * 3 + 1⟩ := by
        unfold getTargetPosition
        simp [het]
      rw [htarget]
      exact ⟨by dsimp only; omega, by dsimp only; omega⟩

/-- Witness for C9: placing the edge-class door tile at the EDGE cell
(1,0) of the path-marked block writes its id at (1,0), an EDGE cell. -/
theorem claim_C9_witness :
    placeTile (some exTileDoor) .tile false ⟨1, 0⟩ exState ≠ exState ∧
    (getTileAt (placeTile (some exTileDoor) .tile false ⟨1, 0⟩
        exState).mapData
        (getTargetPosition (some exTileDoor) .tile ⟨1, 0⟩).x
        (getTargetPosition (some exTileDoor) .tile ⟨1, 0⟩).y =
      some exTileDoor.id ∧
    (exTileDoor.isEdge = true →
      IsEdgeFine (getTargetPosition (some exTileDoor) .tile ⟨1, 0⟩)) ∧
    (exTileDoor.isEdge = false →
      IsCenterFine (getTargetPosition (some exTileDoor) .tile ⟨1, 0⟩))) :=
  ⟨by decide,
    claim_C9_class_match exTileDoor .tile false ⟨1, 0⟩ exState (by decide)⟩

lemma removeTile_processed (p : MapPosition) (s : EditorState) :
    (removeTile p s).processedCells = s.processedCells := by
  simp only [removeTile]
  repeat' split
  all_goals rfl

/-- Either `removeTile` rejects (result exactly `s`), or the bounds check
passed and it nulls the clicked cell of the first layer. -/
lemma removeTile_cases (p : MapPosition) (s : EditorState) :
    removeTile p s = s ∨
    (∃ c rest, s.mapData.layers = c :: rest ∧
      ¬(p.x < 0 ∨ s.mapData.width ≤ p.x ∨ p.y < 0 ∨ s.mapData.height ≤ p.y) ∧
      removeTile p s =
        { s with mapData :=
            { s.mapData with layers :=
                { c with tiles :=
                    (c.tiles.set p.y.toNat
                      ((c.tiles.getD p.y.toNat []).set p.x.toNat none)) } ::
                  rest } }) := by
  unfold removeTile
  by_cases hb : (p.x < 0 ∨ s.mapData.width ≤ p.x ∨
      p.y < 0 ∨ s.mapData.height ≤ p.y)
  · rw [if_pos hb]
    exact Or.inl rfl
  · rw [if_neg hb]
    cases hlay : s.mapData.layers with
    | nil => exact Or.inl rfl
    | cons c rest => exact Or.inr ⟨c, rest, rfl, hb, rfl⟩

lemma removeTile_frame (p : MapPosition) (s : EditorState) (x y : Int)
    (hx : 0 ≤ x) (hy : 0 ≤ y) (hne : ¬(x = p.x ∧ y = p.y)) :
    getTileAt (removeTile p s).mapData x y = getTileAt s.mapData x y := by
  rcases removeTile_cases p s with h | ⟨c, rest, hlay, hb, h⟩
  · rw [h]
  · push_neg at hb
    rw [h]
    unfold getTileAt
    rw [hlay]
    have hxy : x.toNat ≠ p.x.toNat ∨ y.toNat ≠ p.y.toNat := by
      by_contra hcon
      push_neg at hcon
      apply hne
      constructor
      · omega
      · omega
    rcases hxy with hxx | hyy
    · simp only [List.getD_eq_getElem?_getD, List.getElem?_set]
      split
      · rename_i heq
        split
        · simp only [Option.getD_some, List.getElem?_set]
          rw [if_neg (by omega), heq]
        · rename_i hlen
          rw [← heq]
          conv_rhs => rw [List.getElem?_eq_none
            (show c.tiles.length ≤ p.y.toNat by omega)]
      · rfl
    · simp only [List.getD_eq_getElem?_getD, List.getElem?_set]
      rw [if_neg (by omega)]

/-- Updating only the `tiles` field of one layer never changes the first
comments layer's arrow collection. -/
lemma commentArrows_tiles_update (c : TileLayer) (rest : List TileLayer)
    (tl : List (List (Option String))) :
    commentArrowsOfLayers ({ c with tiles := tl } :: rest) =
      commentArrowsOfLayers (c :: rest) := by
  unfold commentArrowsOfLayers
  by_cases hp : c.ltype = LayerType.comments
  · rw [List.find?_cons_of_pos _ (by simpa using hp),
      List.find?_cons_of_pos _ (by simpa using hp)]
  · rw [List.find?_cons_of_neg _ (by simpa using hp),
      List.find?_cons_of_neg _ (by simpa using hp)]

/-- C10: frame conditions — a path add/remove never touches the map
document (tile grid, layers, arrows); a tile place/remove never touches
the path set, the drag tracker or the arrow collection, and changes at
most its single resolved cell of the first layer. -/
theorem claim_C10_frame (t : Tile) (stl : Option Tile) (mode : DrawingMode)
    (poly f : Bool) (p q : MapPosition) (s : EditorState)
    (hqx : 0 ≤ q.x) (hqy : 0 ≤ q.y)
    (hqt : ¬(q.x = (getTargetPosition (some t) mode p).x ∧
      q.y = (getTargetPosition (some t) mode p).y))
    (hqp : ¬(q.x = p.x ∧ q.y = p.y)) :
    ((addPathPoint stl mode p f s).mapData = s.mapData) ∧
    ((removePathPoint p s).mapData = s.mapData) ∧
    ((placeTile (some t) mode poly p s).paths = s.paths) ∧
    ((placeTile (some t) mode poly p s).processedCells = s.processedCells) ∧
    (commentArrowsOfLayers (placeTile (some t) mode poly p s).mapData.layers =
      commentArrowsOfLayers s.mapData.layers) ∧
    ((placeTile (some t) mode poly p s).mapData.layers.drop 1 =
      s.mapData.layers.drop 1) ∧
    (getTileAt (placeTile (some t) mode poly p s).mapData q.x q.y =
      getTileAt s.mapData q.x q.y) ∧
    ((removeTile p s).paths = s.paths) ∧
    ((removeTile p s).processedCells = s.processedCells) ∧
    (commentArrowsOfLayers (removeTile p s).mapData.layers =
      commentArrowsOfLayers s.mapData.layers) ∧
    (getTileAt (removeTile p s).mapData q.x q.y =
      getTileAt s.mapData q.x q.y) := by
  refine ⟨addPathPoint_mapData stl mode p f s, removePathPoint_mapData p s,
    placeTile_paths (some t) mode poly p s,
    placeTile_processed (some t) mode poly p s, ?_, ?_, ?_,
    removeTile_paths p s, removeTile_processed p s, ?_, ?_⟩
  · rcases placeTile_cases t mode poly p s with h | ⟨c, rest, hlay, hb, _, _, _, h⟩
    · rw [h]
    · rw [h, hlay]
      exact commentArrows_tiles_update c rest _
  · rcases placeTile_cases t mode poly p s with h | ⟨c, rest, hlay, hb, _, _, _, h⟩
    · rw [h]
    · rw [h, hlay]
      rfl
  · rcases placeTile_cases t mode poly p s with h | ⟨c, rest, hlay, hb, _, _, _, h⟩
    · rw [h]
    · push_neg at hb
      exact placeTile_frame t mode poly p s q.x q.y hqx hqy hqt
        (getTargetPosition_nonneg (some t) mode p (by omega) (by omega)).1
        (getTargetPosition_nonneg (some t) mode p (by omega) (by omega)).2
  · rcases removeTile_cases p s with h | ⟨c, rest, hlay, hb, h⟩
    · rw [h]
    · rw [h, hlay]
      exact commentArrows_tiles_update c rest _
  · exact removeTile_frame p s q.x q.y hqx hqy hqp

/-- Witness for C10 at a concrete state: probe cell (2,2) with a normal
placement at (1,1) (target (1,1)). -/
theorem claim_C10_witness :
    (0 ≤ (2 : Int) ∧
     ¬((2 : Int) = (getTargetPosition (some exTileNormal) .tile ⟨1, 1⟩).x ∧
       (2 : Int) = (getTargetPosition (some exTileNormal) .tile ⟨1, 1⟩).y) ∧
     ¬((2 : Int) = (1 : Int) ∧ (2 : Int) = (1 : Int))) ∧
    ((addPathPoint none .tile ⟨1, 1⟩ true exStateWithPath).mapData =
      exStateWithPath.mapData) ∧
    ((removePathPoint ⟨1, 1⟩ exStateWithPath).mapData =
      exStateWithPath.mapData) ∧
    ((placeTile (some exTileNormal) .tile true ⟨1, 1⟩
        exStateWithPath).paths = exStateWithPath.paths) ∧
    ((placeTile (some exTileNormal) .tile true ⟨1, 1⟩
        exStateWithPath).processedCells = exStateWithPath.processedCells) ∧
    (commentArrowsOfLayers (placeTile (some exTileNormal) .tile true ⟨1, 1⟩
        exStateWithPath).mapData.layers =
      commentArrowsOfLayers exStateWithPath.mapData.layers) ∧
    ((placeTile (some exTileNormal) .tile true ⟨1, 1⟩
        exStateWithPath).mapData.layers.drop 1 =
      exStateWithPath.mapData.layers.drop 1) ∧
    (getTileAt (placeTile (some exTileNormal) .tile true ⟨1, 1⟩
        exStateWithPath).mapData 2 2 = getTileAt exStateWithPath.mapData 2 2) ∧
    ((removeTile ⟨1, 1⟩ exStateWithPath).paths = exStateWithPath.paths) ∧
    ((removeTile ⟨1, 1⟩ exStateWithPath).processedCells =
      exStateWithPath.processedCells) ∧
    (commentArrowsOfLayers (removeTile ⟨1, 1⟩
        exStateWithPath).mapData.layers =
      commentArrowsOfLayers exStateWithPath.mapData.layers) ∧
    (getTileAt (removeTile ⟨1, 1⟩ exStateWithPath).mapData 2 2 =
      getTileAt exStateWithPath.mapData 2 2) :=
  ⟨⟨by decide, by decide, by decide⟩,
    claim_C10_frame exTileNormal none .tile true true ⟨1, 1⟩ ⟨2, 2⟩
      exStateWithPath (by decide) (by decide) (by decide) (by decide)⟩

lemma commentArrows_addArrow (a : CommentArrow) (ls : List TileLayer)
    (hsome : (ls.find? (fun layer =>
      decide (layer.ltype = LayerType.comments))).isSome = true) :
    commentArrowsOfLayers
      (modifyCommentLayer
        (fun l => { l with arrows := some (l.arrows.getD [] ++ [a]) }) ls) =
      commentArrowsOfLayers ls ++ [a] := by
  induction ls with
  | nil => simp [List.find?] at hsome
  | cons l rest ih =>
    by_cases hp : l.ltype = LayerType.comments
    · have h0 : (l :: rest).findIdx? (fun layer =>
          decide (layer.ltype = LayerType.comments)) = some 0 := by
        rw [List.findIdx?_cons]
        simp [hp]
      unfold modifyCommentLayer
      rw [h0]
      simp only [List.getElem?_cons_zero, List.set_cons_zero]
      unfold commentArrowsOfLayers
      rw [List.find?_cons_of_pos _ (by simpa using hp),
        List.find?_cons_of_pos _ (by simpa using hp)]
      simp
    · have hrest : (rest.find? (fun layer =>
          decide (layer.ltype = LayerType.comments))).isSome = true := by
        rw [List.find?_cons_of_neg _ (by simpa using hp)] at hsome
        exact hsome
      have hcons : (l :: rest).findIdx? (fun layer =>
          decide (layer.ltype = LayerType.comments)) =
          (rest.findIdx? (fun layer =>
            decide (layer.ltype = LayerType.comments))).map (fun i => i + 1) := by
        rw [List.findIdx?_cons]
        simp only [hp, decide_False, Bool.false_eq_true, if_false]
        exact List.findIdx?_succ
      cases hr : rest.findIdx? (fun layer =>
          decide (layer.ltype = LayerType.comments)) with
      | none =>
        rcases List.find?_isSome.1 hrest with ⟨x, hx, hpx⟩
        rw [List.findIdx?_eq_none_iff] at hr
        rw [hr x hx] at hpx
        cases hpx
      | some j =>
        have hj : j < rest.length := by
          rw [List.findIdx?_eq_some_iff_getElem] at hr
          exact hr.1
        have hmod : modifyCommentLayer
            (fun l1 => { l1 with arrows := some (l1.arrows.getD [] ++ [a]) })
            (l :: rest) =
            l :: modifyCommentLayer
              (fun l1 => { l1 with arrows := some (l1.arrows.getD [] ++ [a]) })
              rest := by
          unfold modifyCommentLayer
          rw [hcons, hr]
          simp only [Option.map_some']
          rw [List.getElem?_cons_succ]
          cases hget : rest[j]? with
          | none => rfl
          | some x => simp only [List.set_cons_succ]
        rw [hmod]
        unfold commentArrowsOfLayers
        rw [List.find?_cons_of_neg _ (by simpa using hp),
          List.find?_cons_of_neg _ (by simpa using hp)]
        have hih := ih hrest
        unfold commentArrowsOfLayers at hih
        exact hih

/-- C6: finalizing an in-progress arrow with at least two accepted points
appends exactly one arrow carrying that point sequence (with the fixed
thickness 10 and the selected colour) and returns to the idle state; a
finalize with a single point appends nothing but still resets to idle. -/
theorem claim_C6_finalize (color newId : String) (now : Int)
    (tilePos : MapPosition) (m : MapData) (st₁ st₂ : ArrowDrawState)
    (h₁ : st₁.isDrawingArrow = true)
    (h₂ : 2 ≤ st₁.currentArrowPoints.length)
    (h₃ : st₂.isDrawingArrow = true)
    (h₄ : st₂.currentArrowPoints.length = 1)
    (hm : (m.layers.find? (fun layer =>
      decide (layer.ltype = LayerType.comments))).isSome = true) :
    ((handleCommentRightClick color newId now tilePos st₁ m).1 =
      ⟨false, []⟩ ∧
     commentArrowsOfLayers
        (handleCommentRightClick color newId now tilePos st₁ m).2.layers =
      commentArrowsOfLayers m.layers ++
        [⟨newId, st₁.currentArrowPoints, color, 10, now⟩]) ∧
    (handleCommentRightClick color newId now tilePos st₂ m =
      (⟨false, []⟩, m)) := by
  constructor
  · have hred : handleCommentRightClick color newId now tilePos st₁ m =
        (⟨false, []⟩,
         createArrowFromPoints color newId now st₁.currentArrowPoints m) := by
      unfold handleCommentRightClick
      rw [if_pos]
      rw [h₁]
      simp only [Bool.true_and, decide_eq_true_eq]
      omega
    rw [hred]
    refine ⟨rfl, ?_⟩
    unfold createArrowFromPoints
    rw [if_neg]
    · have hcent : st₁.currentArrowPoints.map
          (fun point => getTileCenterPosition point) =
          st₁.currentArrowPoints := by
        have hid : (fun point => getTileCenterPosition point) =
            fun point : MapPosition => point := rfl
        rw [hid, List.map_id']
      simp only [hcent]
      exact commentArrows_addArrow _ m.layers hm
    · rw [not_or]
      constructor
      · simp only [Option.isNone_iff_eq_none]
        intro hnone
        rw [hnone] at hm
        cases hm
      · omega
  · unfold handleCommentRightClick
    rw [if_pos]
    · unfold createArrowFromPoints
      rw [if_pos]
      omega
    · rw [h₃]
      simp only [Bool.true_and, decide_eq_true_eq]
      omega

/-- A test map with a tiles layer and an empty comments layer. -/
def exMapWithComments : MapData :=
  ⟨3, 3, [exLayer, ⟨.comments, [], some []⟩]⟩

/-- Witness for C6 at concrete states: finalizing a two-point arrow and a
one-point arrow over `exMapWithComments`. -/
theorem claim_C6_witness :
    ((⟨true, [⟨1, 1⟩, ⟨1, 4⟩]⟩ : ArrowDrawState).isDrawingArrow = true ∧
     2 ≤ (⟨true, [⟨1, 1⟩, ⟨1, 4⟩]⟩ : ArrowDrawState).currentArrowPoints.length ∧
     (⟨true, [⟨1, 1⟩]⟩ : ArrowDrawState).isDrawingArrow = true ∧
     (⟨true, [⟨1, 1⟩]⟩ : ArrowDrawState).currentArrowPoints.length = 1 ∧
     (exMapWithComments.layers.find? (fun layer =>
       decide (layer.ltype = LayerType.comments))).isSome = true) ∧
    ((handleCommentRightClick "#ff0000" "arrow-1" 0 ⟨0, 0⟩
        ⟨true, [⟨1, 1⟩, ⟨1, 4⟩]⟩ exMapWithComments).1 = ⟨false, []⟩ ∧
     commentArrowsOfLayers (handleCommentRightClick "#ff0000" "arrow-1" 0
        ⟨0, 0⟩ ⟨true, [⟨1, 1⟩, ⟨1, 4⟩]⟩ exMapWithComments).2.layers =
      commentArrowsOfLayers exMapWithComments.layers ++
        [⟨"arrow-1", [⟨1, 1⟩, ⟨1, 4⟩], "#ff0000", 10, 0⟩]) ∧
    (handleCommentRightClick "#ff0000" "arrow-1" 0 ⟨0, 0⟩
        ⟨true, [⟨1, 1⟩]⟩ exMapWithComments = (⟨false, []⟩, exMapWithComments)) := by
  have h := claim_C6_finalize "#ff0000" "arrow-1" 0 ⟨0, 0⟩ exMapWithComments
    ⟨true, [⟨1, 1⟩, ⟨1, 4⟩]⟩ ⟨true, [⟨1, 1⟩]⟩ (by decide) (by decide)
    (by decide) (by decide) (by decide)
  exact ⟨⟨by decide, by decide, by decide, by decide, by decide⟩, h.1, h.2⟩

lemma overlapFilter_pos_iff (arrows : List CommentArrow) (arrowIndex : ℕ)
    (cur : MapPosition) :
    0 < (arrows.enum.filter fun other =>
      if arrowIndex ≤ other.1 then false
      else other.2.points.any fun otherPoint =>
        (otherPoint.x - cur.x).natAbs ≤ 1 &&
        (otherPoint.y - cur.y).natAbs ≤ 1).length ↔
    OverlapsEarlierArrow arrows arrowIndex cur := by
  rw [List.length_pos_iff_ne_nil, Ne, List.filter_eq_nil_iff]
  push_neg
  constructor
  · rintro ⟨x, hx, hpx⟩
    rw [List.mem_enum_iff_getElem?] at hx
    by_cases hj : arrowIndex ≤ x.1
    · rw [if_pos hj] at hpx
      cases hpx
    · rw [if_neg hj] at hpx
      rw [List.any_eq_true] at hpx
      obtain ⟨q, hq, hqc⟩ := hpx
      simp only [Bool.and_eq_true, decide_eq_true_eq] at hqc
      exact ⟨x.1, x.2, by omega, hx, q, hq, hqc.1, hqc.2⟩
  · rintro ⟨j, b, hj, hb, q, hq, hq1, hq2⟩
    refine ⟨(j, b), List.mem_enum_iff_getElem?.2 hb, ?_⟩
    dsimp only
    rw [if_neg (by omega), List.any_eq_true]
    exact ⟨q, hq, by simp [hq1, hq2]⟩

lemma codeOffset_eq_claimed (prevPoint currentPoint : MapPosition) (i : ℕ) :
    ((calculatePerpendicularOffset prevPoint currentPoint 12).1 *
        (if i % 2 = 0 then (1 : ℝ) else -1) * ((i / 2 + 1 : ℕ) : ℝ),
     (calculatePerpendicularOffset prevPoint currentPoint 12).2 *
        (if i % 2 = 0 then (1 : ℝ) else -1) * ((i / 2 + 1 : ℕ) : ℝ)) =
      claimedOffset prevPoint currentPoint i := by
  unfold calculatePerpendicularOffset claimedOffset unitPerpendicular
  dsimp only
  by_cases hL : Real.sqrt
      ((((currentPoint.x - prevPoint.x : Int) : ℝ)) *
        (((currentPoint.x - prevPoint.x : Int) : ℝ)) +
       (((currentPoint.y - prevPoint.y : Int) : ℝ)) *
        (((currentPoint.y - prevPoint.y : Int) : ℝ))) = 0
  · rw [if_pos hL, hL]
    simp
  · rw [if_neg hL]

/-- C7: the offset solver is a pure function of the ordered arrow
collection; the entry at collection index `i` is keyed by the arrow's id;
point index 0 always receives offset (0,0); a point with index `k > 0`
receives a non-zero offset only when an earlier arrow has a point within
Chebyshev distance 1 of it, in which case the offset is the unit
perpendicular of the segment from point `k-1`, scaled by 12 pixels, with
sign `+1` for even `i` and `-1` for odd `i`, further scaled by
`i / 2 + 1`. -/
theorem claim_C7_offsets (arrows : List CommentArrow) (i : ℕ)
    (a : CommentArrow) (hi : arrows[i]? = some a) :
    (calculateArrowOffsets arrows = calculateArrowOffsets arrows) ∧
    ((calculateArrowOffsets arrows)[i]? =
      some (a.id, arrowOffsetPoints arrows i a)) ∧
    (∀ cur, a.points[0]? = some cur →
      (arrowOffsetPoints arrows i a)[0]? = some (0, 0)) ∧
    (∀ k cur, 0 < k → a.points[k]? = some cur →
      ¬OverlapsEarlierArrow arrows i cur →
      (arrowOffsetPoints arrows i a)[k]? = some (0, 0)) ∧
    (∀ k cur prevPoint, 0 < k → a.points[k]? = some cur →
      a.points[k - 1]? = some prevPoint →
      OverlapsEarlierArrow arrows i cur →
      (arrowOffsetPoints arrows i a)[k]? =
        some (claimedOffset prevPoint cur i)) := by
  have hbody : ∀ k cur, a.points[k]? = some cur →
      (arrowOffsetPoints arrows i a)[k]? =
        some (if 0 < (arrows.enum.filter fun other =>
              if i ≤ other.1 then false
              else other.2.points.any fun otherPoint =>
                (otherPoint.x - cur.x).natAbs ≤ 1 &&
                (otherPoint.y - cur.y).natAbs ≤ 1).length ∧ 0 < k then
            match a.points[k - 1]? with
            | none => ((0 : ℝ), (0 : ℝ))
            | some prevPoint =>
              ((calculatePerpendicularOffset prevPoint cur 12).1 *
                  (if i % 2 = 0 then (1 : ℝ) else -1) * ((i / 2 + 1 : ℕ) : ℝ),
               (calculatePerpendicularOffset prevPoint cur 12).2 *
                  (if i % 2 = 0 then (1 : ℝ) else -1) * ((i / 2 + 1 : ℕ) : ℝ))
          else ((0 : ℝ), (0 : ℝ))) := by
    intro k cur hk
    simp only [arrowOffsetPoints, List.getElem?_map, List.getElem?_enum, hk,
      Option.map_some']
  refine ⟨rfl, ?_, ?_, ?_, ?_⟩
  · simp only [calculateArrowOffsets, List.getElem?_map, List.getElem?_enum,
      hi, Option.map_some']
  · intro cur hcur
    rw [hbody 0 cur hcur]
    simp
  · intro k cur hk0 hk hnov
    rw [hbody k cur hk]
    rw [if_neg]
    intro hcon
    exact hnov ((overlapFilter_pos_iff arrows i cur).1 hcon.1)
  · intro k cur prevPoint hk0 hk hprev hov
    rw [hbody k cur hk]
    rw [if_pos ⟨(overlapFilter_pos_iff arrows i cur).2 hov, hk0⟩, hprev]
    exact congrArg some (codeOffset_eq_claimed prevPoint cur i)

/-- Concrete two-arrow collection for the C7 witness: the second arrow
coincides with the first. -/
def exArrows : List CommentArrow :=
  [⟨"a0", [⟨4, 4⟩, ⟨4, 7⟩], "#ff0000", 10, 0⟩,
   ⟨"a1", [⟨4, 4⟩, ⟨4, 7⟩], "#00ff00", 10, 1⟩]

/-- Witness for C7 at the concrete collection `exArrows`, index 1. -/
theorem claim_C7_witness :
    exArrows[1]? = some ⟨"a1", [⟨4, 4⟩, ⟨4, 7⟩], "#00ff00", 10, 1⟩ ∧
    ((calculateArrowOffsets exArrows = calculateArrowOffsets exArrows) ∧
     ((calculateArrowOffsets exArrows)[1]? =
       some ("a1", arrowOffsetPoints exArrows 1
         ⟨"a1", [⟨4, 4⟩, ⟨4, 7⟩], "#00ff00", 10, 1⟩)) ∧
     (∀ cur, ([(⟨4, 4⟩ : MapPosition), ⟨4, 7⟩])[0]? = some cur →
       (arrowOffsetPoints exArrows 1
         ⟨"a1", [⟨4, 4⟩, ⟨4, 7⟩], "#00ff00", 10, 1⟩)[0]? = some (0, 0)) ∧
     (∀ k cur, 0 < k → ([(⟨4, 4⟩ : MapPosition), ⟨4, 7⟩])[k]? = some cur →
       ¬OverlapsEarlierArrow exArrows 1 cur →
       (arrowOffsetPoints exArrows 1
         ⟨"a1", [⟨4, 4⟩, ⟨4, 7⟩], "#00ff00", 10, 1⟩)[k]? = some (0, 0)) ∧
     (∀ k cur prevPoint, 0 < k →
       ([(⟨4, 4⟩ : MapPosition), ⟨4, 7⟩])[k]? = some cur →
       ([(⟨4, 4⟩ : MapPosition), ⟨4, 7⟩])[k - 1]? = some prevPoint →
       OverlapsEarlierArrow exArrows 1 cur →
       (arrowOffsetPoints exArrows 1
         ⟨"a1", [⟨4, 4⟩, ⟨4, 7⟩], "#00ff00", 10, 1⟩)[k]? =
         some (claimedOffset prevPoint cur 1))) :=
  ⟨by decide,
    claim_C7_offsets exArrows 1 ⟨"a1", [⟨4, 4⟩, ⟨4, 7⟩], "#00ff00", 10, 1⟩
      (by decide)⟩

end WizMap
